import Mathlib

/-! rk-entry: the application context (package rkentry, file entry/context.go)

A shallow embedding of the process-wide registry of context.go and the
properties of its operations.

Modelling conventions

* A Go map with string keys is an association list (GoMap).  The order of the
  list is the order in which a range loop visits the map in the run under
  consideration; Go leaves that order unspecified, and the theorems below are
  stated for every list, hence for every content and every visiting order.
  The maps held by the context are never nil: GlobalAppCtx is built from map
  literals and make, and AddEntry and clearEntries only store map literals.
  A lookup in a missing inner map (a nil map in Go) reads as a miss.
* An in-place update of an inner map (an assignment v[k] = e or delete(v, k)
  through the reference v obtained from the outer map) is written back into
  the outer map.
* An Entry interface value is either nil (Option.none) or a non-nil pointer to
  a struct of some concrete type.  The pointer is kept as an address (ptr), the
  concrete type as dynType.  GetType() and GetName() are read off the value and
  are fixed per entry.
* A run-time panic is an error result (Except Panic).
* A registration function and the method Bootstrap are code of the
  collaborators.  They are functions of the global context: a call returns,
  may change the global context, and leaves the registration function lists
  alone.  A bootstrap pass is modelled together with the list of calls it makes,
  each with the global context at the moment of the call.
* Declarations of the package that live in other files (the entry type
  constants, the stdout fallback instances, the interface Crypto, the function
  appInfoEntryDefault) are parameters of the functions that use them.
* Shutdown hooks and embedded file systems are kept as handles; a nil function
  or pointer is Option.none.  The hook table and the store of embedded file
  systems never hold nil, as AddShutdownHook and AddEmbedFS refuse it.
* The registration function lists are lists in Package.  Where sharing of
  memory is the question they are slice headers over backing arrays
  (RegFuncSlices), of which the lists are the views.
-/

namespace rkentry

/-! ## Go maps -/

/-- Go map with string keys, as an association list in visiting order. -/
abbrev GoMap (V : Type) := List (String × V)

namespace GoMap

variable {V : Type}

/-- The lookup m[k] in its comma-ok form: none when the key is missing. -/
def get? : GoMap V → String → Option V
  | [], _ => none
  | (k1, v1) :: m, k => if k1 = k then some v1 else get? m k

/-- The assignment m[k] = v: overwrite the slot of k, or add a slot. -/
def set : GoMap V → String → V → GoMap V
  | [], k, v => [(k, v)]
  | (k1, v1) :: m, k, v => if k1 = k then (k, v) :: m else (k1, v1) :: set m k v

/-- The builtin delete(m, k); nothing happens when k is missing. -/
def delete (m : GoMap V) (k : String) : GoMap V :=
  m.filter (fun p => decide (p.1 ≠ k))

/-- The builtin len(m). -/
def len (m : GoMap V) : Nat := m.length

/-- The values of the map in visiting order. -/
def values (m : GoMap V) : List V := m.map Prod.snd

/-- Keys are pairwise distinct, as in every Go map. -/
def WF (m : GoMap V) : Prop := (m.map Prod.fst).Nodup

end GoMap

/-! ## Entries -/

/-- Concrete type of the struct an Entry interface value points to. -/
inductive GoType
  | appInfoEntry
  | ConfigEntry
  | LoggerEntry
  | EventEntry
  | userDefined (typeName : String)
  deriving DecidableEq, Repr

/-- A non-nil Entry interface value: a pointer (ptr) to a struct of concrete
type dynType.  entryType and entryName are what GetType() and GetName()
return; IsDefault is the field of that name of LoggerEntry and EventEntry. -/
structure Entry where
  ptr : Nat
  dynType : GoType
  entryType : String
  entryName : String
  IsDefault : Bool
  deriving DecidableEq, Repr

/-- The method GetType() of the Entry interface. -/
def Entry.GetType (e : Entry) : String := e.entryType

/-- The method GetName() of the Entry interface. -/
def Entry.GetName (e : Entry) : String := e.entryName

/-- Run-time panics the modelled code can raise. -/
inductive Panic
  | interfaceConversion (have_ : GoType) (want : GoType)
  | indexOutOfRange (i : Nat) (len : Nat)
  | sliceBoundsOutOfRange (n : Nat) (cap : Nat)
  deriving DecidableEq, Repr

deriving instance DecidableEq for Except

/-- The single-value type assertion v.(*T): panics unless the concrete type
of v is T. -/
def typeAssert (v : Entry) (T : GoType) : Except Panic Entry :=
  if v.dynType = T then .ok v else .error (.interfaceConversion v.dynType T)

/-- A value of type interface{} kept in the user value store. -/
inductive Value
  | nil
  | str (s : String)
  | int (i : Int)
  | ref (addr : Nat)
  deriving DecidableEq, Repr

/-! ## The application context -/

/-- The struct appContext.  Function values, the signal channel and the
embedded file systems are kept as handles (addresses). -/
structure appContext where
  startTime : Nat
  appInfoEntry : Entry
  readinessCheck : Option Nat
  livenessCheck : Option Nat
  entries : GoMap (GoMap Entry)
  embedFS : GoMap (GoMap Nat)
  userValues : GoMap Value
  shutdownSig : Nat
  shutdownHooks : GoMap Nat
  deriving DecidableEq, Repr

/-- The method AddEntry of appContext. -/
def AddEntry (ctx : appContext) (entry : Option Entry) : appContext :=
  match entry with
  | none => ctx
  | some entry =>
    match ctx.entries.get? entry.GetType with
    | none =>
      { ctx with entries := ctx.entries.set entry.GetType [(entry.GetName, entry)] }
    | some v =>
      { ctx with entries := ctx.entries.set entry.GetType (v.set entry.GetName entry) }

/-- The method clearEntries of appContext. -/
def clearEntries (ctx : appContext) : appContext :=
  { ctx with entries := [] }

/-- The method GetEntry of appContext; none is the nil interface value. -/
def GetEntry (ctx : appContext) (entryType entryName : String) : Option Entry :=
  match ctx.entries.get? entryType with
  | some v => v.get? entryName
  | none => none

/-- The method RemoveEntry of appContext. -/
def RemoveEntry (ctx : appContext) (entry : Option Entry) : appContext :=
  match entry with
  | none => ctx
  | some entry =>
    match ctx.entries.get? entry.GetType with
    | some v =>
      { ctx with entries := ctx.entries.set entry.GetType (v.delete entry.GetName) }
    | none => ctx

/-- The method RemoveEntryByType of appContext. -/
def RemoveEntryByType (ctx : appContext) (entryType : String) : appContext :=
  { ctx with entries := ctx.entries.delete entryType }

/-- The method ListEntriesByType of appContext.  The result is a map
reference: none would be the nil map, some m a non-nil map with content m. -/
def ListEntriesByType (ctx : appContext) (entryType : String) : Option (GoMap Entry) :=
  match ctx.entries.get? entryType with
  | some v => some v
  | none => some []

/-- The method ListEntries of appContext. -/
def ListEntries (ctx : appContext) : GoMap (GoMap Entry) :=
  ctx.entries

/-! ## Typed accessors -/

/-- The method GetConfigEntry of appContext.  ConfigEntryType is the constant
of that name; the result none is the nil pointer. -/
def GetConfigEntry (ConfigEntryType : String) (ctx : appContext) (entryName : String) :
    Except Panic (Option Entry) :=
  let entries := (ctx.entries.get? ConfigEntryType).getD []
  match entries.get? entryName with
  | some v =>
    match typeAssert v GoType.ConfigEntry with
    | .ok r => .ok (some r)
    | .error p => .error p
  | none => .ok none

/-- The method GetLoggerEntry of appContext. -/
def GetLoggerEntry (LoggerEntryType : String) (ctx : appContext) (entryName : String) :
    Except Panic (Option Entry) :=
  let entries := (ctx.entries.get? LoggerEntryType).getD []
  match entries.get? entryName with
  | some v =>
    match typeAssert v GoType.LoggerEntry with
    | .ok r => .ok (some r)
    | .error p => .error p
  | none => .ok none

/-- The method GetEventEntry of appContext. -/
def GetEventEntry (EventEntryType : String) (ctx : appContext) (entryName : String) :
    Except Panic (Option Entry) :=
  let entries := (ctx.entries.get? EventEntryType).getD []
  match entries.get? entryName with
  | some v =>
    match typeAssert v GoType.EventEntry with
    | .ok r => .ok (some r)
    | .error p => .error p
  | none => .ok none

/-- The loop shared by GetLoggerEntryDefault and GetEventEntryDefault,
  for _, v := range entries { if v.(*T).IsDefault { res = v.(*T); break } }
followed by return res, over the values in visiting order. -/
def rangeDefault (T : GoType) (res : Entry) : List Entry → Except Panic Entry
  | [] => .ok res
  | v :: rest =>
    match typeAssert v T with
    | .error p => .error p
    | .ok l => if l.IsDefault then typeAssert v T else rangeDefault T res rest

/-- The method GetLoggerEntryDefault of appContext.  LoggerEntryStdout is the
package variable of that name. -/
def GetLoggerEntryDefault (LoggerEntryType : String) (LoggerEntryStdout : Entry)
    (ctx : appContext) : Except Panic Entry :=
  let res := LoggerEntryStdout
  let entries := (ctx.entries.get? LoggerEntryType).getD []
  rangeDefault GoType.LoggerEntry res entries.values

/-- The method GetEventEntryDefault of appContext.  EventEntryStdout is the
package variable of that name. -/
def GetEventEntryDefault (EventEntryType : String) (EventEntryStdout : Entry)
    (ctx : appContext) : Except Panic Entry :=
  let res := EventEntryStdout
  let entries := (ctx.entries.get? EventEntryType).getD []
  rangeDefault GoType.EventEntry res entries.values

/-! ## Registration functions and the bootstrap passes -/

/-- Raw configuration bytes. -/
abbrev Raw := List Nat

/-- The context.Context handed to Bootstrap; only context.Background() occurs. -/
inductive Context
  | Background
  deriving DecidableEq, Repr

/-- A non-nil value of type RegFunc.  Calling it with the raw bytes returns a
map of entries and may change the global context (the shipped registration
functions insert what they build with GlobalAppCtx.AddEntry). -/
structure RegFunc where
  call : Raw → appContext → GoMap Entry × appContext

/-- The package level variables of context.go. -/
structure Package where
  GlobalAppCtx : appContext
  builtinRegFuncList : List RegFunc
  pluginRegFuncList : List RegFunc
  webFrameRegFuncList : List RegFunc
  userDefRegFuncList : List RegFunc

/-- One call made by a bootstrap pass, with the global context as it was when
the call was made: either the function at index i of the list, called with raw
and returning the map returned, or Bootstrap of the entry v. -/
inductive Call
  | regFunc (i : Nat) (raw : Raw) (global : appContext) (returned : GoMap Entry)
  | Bootstrap (v : Entry) (ctx : Context) (global : appContext)
  deriving DecidableEq, Repr

/-- A call without the snapshot of the global context. -/
inductive Label
  | regFunc (i : Nat) (raw : Raw) (returned : GoMap Entry)
  | Bootstrap (v : Entry)
  deriving DecidableEq, Repr

/-- Forget the snapshot of a call. -/
def Call.label : Call → Label
  | .regFunc i raw _ m => Label.regFunc i raw m
  | .Bootstrap v _ _ => Label.Bootstrap v

/-- The index of the registration function a call invokes, if it is one. -/
def Call.regIndex : Call → Option Nat
  | .regFunc i _ _ _ => some i
  | .Bootstrap _ _ _ => none

/-- The map a call of a registration function returned. -/
def Call.returned : Call → Option (GoMap Entry)
  | .regFunc _ _ _ m => some m
  | .Bootstrap _ _ _ => none

/-- Whether the call is a call of Bootstrap. -/
def Call.isBootstrap : Call → Bool
  | .regFunc _ _ _ _ => false
  | .Bootstrap _ _ _ => true

/-- The inner loop for _, v := range entries { v.Bootstrap(ctx) }.  Bootstrap
is the method of that name, acting on the global context; the result is the
global context after the loop and the calls made, in order. -/
def bootstrapEntries (Bootstrap : Entry → Context → appContext → appContext) (ctx : Context) :
    List Entry → appContext → appContext × List Call
  | [], g => (g, [])
  | v :: rest, g =>
    let r := bootstrapEntries Bootstrap ctx rest (Bootstrap v ctx g)
    (r.1, Call.Bootstrap v ctx g :: r.2)

/-- The outer loop for i := range list { entries := list[i](raw); ... },
started at index i. -/
def bootstrapRegFuncs (Bootstrap : Entry → Context → appContext → appContext) (raw : Raw)
    (ctx : Context) : List RegFunc → Nat → appContext → appContext × List Call
  | [], _, g => (g, [])
  | f :: fs, i, g =>
    let entries := f.call raw g
    let r := bootstrapEntries Bootstrap ctx entries.1.values entries.2
    let s := bootstrapRegFuncs Bootstrap raw ctx fs (i + 1) r.1
    (s.1, Call.regFunc i raw g entries.1 :: (r.2 ++ s.2))

/-- The function BootstrapBuiltInEntryFromYAML, with the calls it makes. -/
def BootstrapBuiltInEntryFromYAML (Bootstrap : Entry → Context → appContext → appContext)
    (raw : Raw) (p : Package) : Package × List Call :=
  let ctx := Context.Background
  let r := bootstrapRegFuncs Bootstrap raw ctx p.builtinRegFuncList 0 p.GlobalAppCtx
  ({ p with GlobalAppCtx := r.1 }, r.2)

/-- The function BootstrapPluginEntryFromYAML, with the calls it makes. -/
def BootstrapPluginEntryFromYAML (Bootstrap : Entry → Context → appContext → appContext)
    (raw : Raw) (p : Package) : Package × List Call :=
  let ctx := Context.Background
  let r := bootstrapRegFuncs Bootstrap raw ctx p.pluginRegFuncList 0 p.GlobalAppCtx
  ({ p with GlobalAppCtx := r.1 }, r.2)

/-- The function BootstrapWebFrameEntryFromYAML, with the calls it makes. -/
def BootstrapWebFrameEntryFromYAML (Bootstrap : Entry → Context → appContext → appContext)
    (raw : Raw) (p : Package) : Package × List Call :=
  let ctx := Context.Background
  let r := bootstrapRegFuncs Bootstrap raw ctx p.webFrameRegFuncList 0 p.GlobalAppCtx
  ({ p with GlobalAppCtx := r.1 }, r.2)

/-- The function BootstrapUserEntryFromYAML, with the calls it makes. -/
def BootstrapUserEntryFromYAML (Bootstrap : Entry → Context → appContext → appContext)
    (raw : Raw) (p : Package) : Package × List Call :=
  let ctx := Context.Background
  let r := bootstrapRegFuncs Bootstrap raw ctx p.userDefRegFuncList 0 p.GlobalAppCtx
  ({ p with GlobalAppCtx := r.1 }, r.2)

/-! ## Concrete values used in the examples -/

/-- The test double EntryMock of context_test.go: GetType() is "mock". -/
def EntryMock (ptr : Nat) (Name : String) : Entry :=
  { ptr := ptr, dynType := GoType.userDefined "EntryMock", entryType := "mock",
    entryName := Name, IsDefault := false }

/-- A user defined entry whose GetType() returns the given string. -/
def foreignEntry (ptr : Nat) (entryType Name : String) : Entry :=
  { ptr := ptr, dynType := GoType.userDefined "EntryMock", entryType := entryType,
    entryName := Name, IsDefault := false }

/-- A pointer to a LoggerEntry. -/
def loggerEntry (ptr : Nat) (Name : String) (IsDefault : Bool) : Entry :=
  { ptr := ptr, dynType := GoType.LoggerEntry, entryType := "LoggerEntry",
    entryName := Name, IsDefault := IsDefault }

/-- A pointer to an EventEntry. -/
def eventEntry (ptr : Nat) (Name : String) (IsDefault : Bool) : Entry :=
  { ptr := ptr, dynType := GoType.EventEntry, entryType := "EventEntry",
    entryName := Name, IsDefault := IsDefault }

/-- A context with an empty registry, as after clearEntries, and empty stores. -/
def emptyCtx : appContext :=
  { startTime := 0,
    appInfoEntry := { ptr := 1, dynType := GoType.appInfoEntry, entryType := "AppInfoEntry",
                      entryName := "AppInfoDefault", IsDefault := false },
    readinessCheck := none, livenessCheck := none,
    entries := [], embedFS := [], userValues := [], shutdownSig := 2, shutdownHooks := [] }

/-- A registration function that only builds and returns one EntryMock named
"a" and leaves the global context alone. -/
def buildOnlyRegFunc : RegFunc :=
  { call := fun _ g => ([("a", EntryMock 10 "a")], g) }

/-- A registration function that builds an EntryMock named "a", inserts it with
GlobalAppCtx.AddEntry and returns it, as the shipped registration functions do. -/
def insertingRegFunc : RegFunc :=
  { call := fun _ g => ([("a", EntryMock 10 "a")], AddEntry g (some (EntryMock 10 "a"))) }

/-- A Bootstrap method that does nothing, as the one of EntryMock. -/
def noopBootstrap : Entry → Context → appContext → appContext :=
  fun _ _ g => g

/-- Package state with an empty registry and the given plugin list. -/
def pluginPackage (fs : List RegFunc) : Package :=
  { GlobalAppCtx := emptyCtx, builtinRegFuncList := [], pluginRegFuncList := fs,
    webFrameRegFuncList := [], userDefRegFuncList := [] }

/-- A registry with three logger entries, of which "l2" alone is flagged
IsDefault, and two event entries, none of them flagged. -/
def loggerCtx : appContext :=
  AddEntry (AddEntry (AddEntry (AddEntry (AddEntry emptyCtx
    (some (loggerEntry 20 "l1" false)))
    (some (loggerEntry 21 "l2" true)))
    (some (loggerEntry 22 "l3" false)))
    (some (eventEntry 30 "e1" false)))
    (some (eventEntry 31 "e2" false))

/-- The calls of one bootstrap pass over the list fs with the bytes raw, as the
specification words them: every function of the list is called once, with raw,
in list order; each call of the function at index i returns what that function
returns on the global context of that moment; the calls are, function by
function, the call of the function followed by one Bootstrap per entry of the
map it returned; hence there are as many Bootstrap calls as the returned maps
have entries, and none for an empty list. -/
def InListOrderOncePerEntry (raw : Raw) (fs : List RegFunc) (t : List Call) : Prop :=
  t.filterMap Call.regIndex = List.range fs.length ∧
  (∀ i raw1 g m, Call.regFunc i raw1 g m ∈ t →
    raw1 = raw ∧ ∃ f, fs[i]? = some f ∧ (f.call raw g).1 = m) ∧
  t.map Call.label = ((t.filterMap Call.returned).enum).flatMap
    (fun im => Label.regFunc im.1 raw im.2 :: im.2.values.map Label.Bootstrap) ∧
  t.countP Call.isBootstrap = ((t.filterMap Call.returned).map GoMap.len).sum ∧
  (fs = [] → t = [])

/-- The registration function f inserts what it returns: whatever the global
context, every entry of the map it returns is stored at its own type and name
when the call returns (the shipped registration functions do so through
GlobalAppCtx.AddEntry). -/
def InsertsWhatItReturns (raw : Raw) (f : RegFunc) : Prop :=
  ∀ g, ∀ v ∈ (f.call raw g).1.values,
    GetEntry (f.call raw g).2 v.GetType v.GetName = some v

/-- The step on the global context neither removes nor replaces the entry v
once v is stored at its own type and name. -/
def KeepsEntry (v : Entry) (step : appContext → appContext) : Prop :=
  ∀ g, GetEntry g v.GetType v.GetName = some v →
    GetEntry (step g) v.GetType v.GetName = some v

/-- What a bootstrap pass over fs that ended in the global context final after
the calls t guarantees about the registry: every entry is stored at its own type
and name at the moment Bootstrap is called on it, and every entry of a returned
map that no function of the list removes or replaces is stored there after the
pass. -/
def RegisteredBeforeBootstrap (raw : Raw) (fs : List RegFunc) (final : appContext)
    (t : List Call) : Prop :=
  (∀ v c g, Call.Bootstrap v c g ∈ t → GetEntry g v.GetType v.GetName = some v) ∧
  (∀ i raw1 g m, Call.regFunc i raw1 g m ∈ t → ∀ v ∈ m.values,
    (∀ f ∈ fs, KeepsEntry v (fun g2 => (f.call raw g2).2)) →
    GetEntry final v.GetType v.GetName = some v)

/-! ## GetCryptoEntry -/

/-- The comma-ok type assertion v.(Crypto) on an interface type: it never
panics and succeeds exactly when the concrete type of v implements Crypto.
implementsCrypto says which concrete types do (the interface Crypto is declared
in another file). -/
def assertCrypto (implementsCrypto : GoType → Bool) (v : Entry) : Option Entry × Bool :=
  if implementsCrypto v.dynType then (some v, true) else (none, false)

/-- The method GetCryptoEntry of appContext.  CryptoEntryType is the constant of
that name; the result none is the nil interface value. -/
def GetCryptoEntry (CryptoEntryType : String) (implementsCrypto : GoType → Bool)
    (ctx : appContext) (entryName : String) : Except Panic (Option Entry) :=
  match GetEntry ctx CryptoEntryType entryName with
  | some v =>
    match assertCrypto implementsCrypto v with
    | (res, true) => .ok res
    | (_, false) => .ok none
  | none => .ok none

/-! ## Registration of registration functions -/

/-- The function RegisterPluginRegFunc; none is the nil function value. -/
def RegisterPluginRegFunc (p : Package) (regFunc : Option RegFunc) : Package :=
  match regFunc with
  | none => p
  | some regFunc => { p with pluginRegFuncList := p.pluginRegFuncList ++ [regFunc] }

/-- The function RegisterWebFrameRegFunc. -/
def RegisterWebFrameRegFunc (p : Package) (regFunc : Option RegFunc) : Package :=
  match regFunc with
  | none => p
  | some regFunc => { p with webFrameRegFuncList := p.webFrameRegFuncList ++ [regFunc] }

/-- The function RegisterUserEntryRegFunc. -/
def RegisterUserEntryRegFunc (p : Package) (regFunc : Option RegFunc) : Package :=
  match regFunc with
  | none => p
  | some regFunc => { p with userDefRegFuncList := p.userDefRegFuncList ++ [regFunc] }

/-! ## Shutdown hooks -/

/-- The method AddShutdownHook of appContext; f is the handle of the function
value, none the nil function. -/
def AddShutdownHook (ctx : appContext) (name : String) (f : Option Nat) : appContext :=
  match f with
  | none => ctx
  | some f => { ctx with shutdownHooks := ctx.shutdownHooks.set name f }

/-- The method GetShutdownHook of appContext; none is the nil function. -/
def GetShutdownHook (ctx : appContext) (name : String) : Option Nat :=
  ctx.shutdownHooks.get? name

/-- The method ListShutdownHooks of appContext. -/
def ListShutdownHooks (ctx : appContext) : GoMap Nat :=
  ctx.shutdownHooks

/-- The method RemoveShutdownHook of appContext.  Its body does not use the
receiver: it looks the name up in, and deletes it from, the hook table of the
package variable GlobalAppCtx. -/
def RemoveShutdownHook (p : Package) (name : String) : Package × Bool :=
  match p.GlobalAppCtx.shutdownHooks.get? name with
  | some _ =>
    ({ p with GlobalAppCtx :=
        { p.GlobalAppCtx with shutdownHooks := p.GlobalAppCtx.shutdownHooks.delete name } },
     true)
  | none => (p, false)

/-- The loop for k := range m { delete(m, k) } over the keys in visiting
order, shared by clearShutdownHooks and ClearValues. -/
def rangeDelete {V : Type} : List String → GoMap V → GoMap V
  | [], m => m
  | k :: ks, m => rangeDelete ks (m.delete k)

/-- The method clearShutdownHooks of appContext. -/
def clearShutdownHooks (ctx : appContext) : appContext :=
  { ctx with shutdownHooks := rangeDelete (ctx.shutdownHooks.map Prod.fst) ctx.shutdownHooks }

/-! ## Embedded file systems -/

/-- The builtin len of a string: its number of bytes. -/
def strLen (s : String) : Nat := s.utf8ByteSize

/-- The method AddEmbedFS of appContext; fs is the address of the embed.FS,
none the nil pointer.  The guard returns when the type or the name is empty or
fs is nil; otherwise a missing inner map is made first and the slot of the name
in the inner map of the type is then assigned. -/
def AddEmbedFS (ctx : appContext) (entryType entryName : String) (fs : Option Nat) :
    appContext :=
  match fs with
  | none => ctx
  | some fs =>
    if strLen entryType < 1 ∨ strLen entryName < 1 then ctx
    else
      let embedFS1 :=
        match ctx.embedFS.get? entryType with
        | none => ctx.embedFS.set entryType []
        | some _ => ctx.embedFS
      let v := (embedFS1.get? entryType).getD []
      { ctx with embedFS := embedFS1.set entryType (v.set entryName fs) }

/-- The method GetEmbedFS of appContext; none is the nil pointer. -/
def GetEmbedFS (ctx : appContext) (entryType entryName : String) : Option Nat :=
  match ctx.embedFS.get? entryType with
  | none => none
  | some v => v.get? entryName

/-! ## User values -/

/-- The method AddValue of appContext. -/
def AddValue (ctx : appContext) (key : String) (value : Value) : appContext :=
  { ctx with userValues := ctx.userValues.set key value }

/-- The method GetValue of appContext: the zero value nil for a missing key. -/
def GetValue (ctx : appContext) (key : String) : Value :=
  (ctx.userValues.get? key).getD Value.nil

/-- The method ListValues of appContext. -/
def ListValues (ctx : appContext) : GoMap Value :=
  ctx.userValues

/-- The method RemoveValue of appContext. -/
def RemoveValue (ctx : appContext) (key : String) : appContext :=
  { ctx with userValues := ctx.userValues.delete key }

/-- The method ClearValues of appContext. -/
def ClearValues (ctx : appContext) : appContext :=
  { ctx with userValues := rangeDelete (ctx.userValues.map Prod.fst) ctx.userValues }

/-! ## The initial global context -/

/-- The value the package variable GlobalAppCtx is initialised with.  The
parameters stand for what the initialiser takes from elsewhere: time.Now(), the
constants appInfoEntryType and appInfoEntryName, the results of the two calls
of appInfoEntryDefault() in evaluation order, and the channel made for
shutdownSig. -/
def GlobalAppCtx (now : Nat) (appInfoEntryType appInfoEntryName : String)
    (appInfoEntryDefault1 appInfoEntryDefault2 : Entry) (shutdownSig : Nat) : appContext :=
  { startTime := now,
    entries := [(appInfoEntryType, [(appInfoEntryName, appInfoEntryDefault1)])],
    embedFS := [],
    appInfoEntry := appInfoEntryDefault2,
    readinessCheck := none,
    livenessCheck := none,
    shutdownSig := shutdownSig,
    shutdownHooks := [],
    userValues := [] }

/-- A pointer to an appInfoEntry, as appInfoEntryDefault() returns one. -/
def appInfoEntryAt (ptr : Nat) : Entry :=
  { ptr := ptr, dynType := GoType.appInfoEntry, entryType := "AppInfoEntry",
    entryName := "AppInfoDefault", IsDefault := false }

/-- A user defined entry of concrete type CryptoMock stored under the type
"CryptoEntry". -/
def cryptoMock (ptr : Nat) (Name : String) : Entry :=
  { ptr := ptr, dynType := GoType.userDefined "CryptoMock", entryType := "CryptoEntry",
    entryName := Name, IsDefault := false }

/-- Of the concrete types of the examples, CryptoMock alone implements Crypto. -/
def onlyCryptoMock (T : GoType) : Bool :=
  decide (T = GoType.userDefined "CryptoMock")

/-- A registry holding the CryptoMock "c" and, under the same type, the
EntryMock-like entry "m" that does not implement Crypto. -/
def cryptoCtx : appContext :=
  AddEntry (AddEntry emptyCtx (some (cryptoMock 40 "c")))
    (some (foreignEntry 41 "CryptoEntry" "m"))

/-- The package state of the hook examples: the global context holds the hooks
"h1" and "h2". -/
def hookPackage : Package :=
  { GlobalAppCtx :=
      AddShutdownHook (AddShutdownHook emptyCtx "h1" (some 50)) "h2" (some 51),
    builtinRegFuncList := [], pluginRegFuncList := [], webFrameRegFuncList := [],
    userDefRegFuncList := [] }

/-- A context whose user value store holds the keys "k1" and the empty key. -/
def valueCtx : appContext :=
  AddValue (AddValue emptyCtx "k1" (Value.str "v1")) "" (Value.int 7)

/-! ## The registration function lists as slices

Where it matters whether two slices share memory, a []RegFunc value is a slice
header over a backing array kept in a store of arrays; the list held in Package
is the view of the header.  All slices start at offset zero of their array, as
those that make, append and s[:n] produce do. -/

/-- Header of a []RegFunc value: the address of the backing array, the length
and the capacity. -/
structure Slice where
  array : Nat
  len : Nat
  cap : Nat
  deriving DecidableEq, Repr

/-- The backing arrays of the []RegFunc slices, by address; a slot holds a
function or nil. -/
abbrev Arrays := List (List (Option RegFunc))

/-- The elements of a slice: the first len slots of its backing array. -/
def Slice.view (s : Slice) (mem : Arrays) : List (Option RegFunc) :=
  (mem.getD s.array []).take s.len

/-- The header points to an allocated array that is large enough. -/
def Slice.Valid (s : Slice) (mem : Arrays) : Prop :=
  s.array < mem.length ∧ s.len ≤ s.cap ∧ s.cap ≤ (mem.getD s.array []).length

/-- The expression make([]RegFunc, 0): a fresh array without slots. -/
def makeSlice (mem : Arrays) : Arrays × Slice :=
  (mem ++ [[]], { array := mem.length, len := 0, cap := 0 })

/-- The builtin append(s, x).  With spare capacity the slot after the last
element is written in place; otherwise the elements are copied into a fresh
array with room for one more.  growCap is the growth policy of the runtime, of
which only a capacity that holds the new element is used. -/
def sliceAppend (growCap : Nat → Nat) (mem : Arrays) (s : Slice) (x : Option RegFunc) :
    Arrays × Slice :=
  if s.len < s.cap then
    (mem.set s.array ((mem.getD s.array []).set s.len x), { s with len := s.len + 1 })
  else
    let newcap := max (growCap s.cap) (s.len + 1)
    (mem ++ [s.view mem ++ [x] ++ List.replicate (newcap - (s.len + 1)) none],
     { array := mem.length, len := s.len + 1, cap := newcap })

/-- The loop for i := range list { res = append(res, list[i]) } with n
iterations left at index i; list[i] is read from the memory of that moment. -/
def copyLoop (growCap : Nat → Nat) (list : Slice) :
    Nat → Nat → Arrays × Slice → Arrays × Slice
  | 0, _, st => st
  | n + 1, i, st =>
    copyLoop growCap list n (i + 1)
      (sliceAppend growCap st.1 st.2 ((st.1.getD list.array []).getD i none))

/-- The body shared by the three list functions: make an empty slice, append
every element of list to it and return it. -/
def copyRegFuncList (growCap : Nat → Nat) (mem : Arrays) (list : Slice) : Arrays × Slice :=
  let res := makeSlice mem
  copyLoop growCap list list.len 0 res

/-- The package variables pluginRegFuncList, webFrameRegFuncList and
userDefRegFuncList as slice headers, with the store of backing arrays. -/
structure RegFuncSlices where
  arrays : Arrays
  pluginRegFuncList : Slice
  webFrameRegFuncList : Slice
  userDefRegFuncList : Slice

/-- The function ListPluginEntryRegFunc: the memory after the call and the
slice returned. -/
def ListPluginEntryRegFunc (growCap : Nat → Nat) (g : RegFuncSlices) : RegFuncSlices × Slice :=
  let r := copyRegFuncList growCap g.arrays g.pluginRegFuncList
  ({ g with arrays := r.1 }, r.2)

/-- The function ListWebFrameEntryRegFunc. -/
def ListWebFrameEntryRegFunc (growCap : Nat → Nat) (g : RegFuncSlices) :
    RegFuncSlices × Slice :=
  let r := copyRegFuncList growCap g.arrays g.webFrameRegFuncList
  ({ g with arrays := r.1 }, r.2)

/-- The function ListUserEntryRegFunc. -/
def ListUserEntryRegFunc (growCap : Nat → Nat) (g : RegFuncSlices) : RegFuncSlices × Slice :=
  let r := copyRegFuncList growCap g.arrays g.userDefRegFuncList
  ({ g with arrays := r.1 }, r.2)

/-- What a caller can do to a slice it holds: assign an element (s[i] = x),
append (s = append(s, x)) or cut to a length (s = s[:n]). -/
inductive SliceOp
  | setIndex (i : Nat) (x : Option RegFunc)
  | append (x : Option RegFunc)
  | reslice (n : Nat)

/-- One operation on the slice s of the caller. -/
def SliceOp.apply (growCap : Nat → Nat) (op : SliceOp) (st : Arrays × Slice) :
    Except Panic (Arrays × Slice) :=
  match op with
  | .setIndex i x =>
    if i < st.2.len then
      .ok (st.1.set st.2.array ((st.1.getD st.2.array []).set i x), st.2)
    else .error (Panic.indexOutOfRange i st.2.len)
  | .append x => .ok (sliceAppend growCap st.1 st.2 x)
  | .reslice n =>
    if n ≤ st.2.cap then .ok (st.1, { st.2 with len := n })
    else .error (Panic.sliceBoundsOutOfRange n st.2.cap)

/-- A sequence of operations on the slice of the caller, run until the end or
the first panic: the memory and slice reached, and the panic if there was one. -/
def runOps (growCap : Nat → Nat) : List SliceOp → Arrays × Slice →
    (Arrays × Slice) × Option Panic
  | [], st => (st, none)
  | op :: ops, st =>
    match op.apply growCap st with
    | .ok st2 => runOps growCap ops st2
    | .error e => (st, some e)

/-- A growth policy: double the capacity. -/
def doubleCap (c : Nat) : Nat := 2 * c

/-- Slice level state of the examples: the plugin list holds two functions in
an array of three slots, the other two lists are empty. -/
def twoPlugins : RegFuncSlices :=
  { arrays := [[some buildOnlyRegFunc, some insertingRegFunc, none], [], []],
    pluginRegFuncList := { array := 0, len := 2, cap := 3 },
    webFrameRegFuncList := { array := 1, len := 0, cap := 0 },
    userDefRegFuncList := { array := 2, len := 0, cap := 0 } }

/-- The slice of the state st lives in an array allocated after the arrays of
mem0, and the arrays of mem0 are still what they were. -/
def Apart (mem0 : Arrays) (st : Arrays × Slice) : Prop :=
  mem0.length ≤ st.2.array ∧ mem0.length ≤ st.1.length ∧
  ∀ a, a < mem0.length → st.1.getD a [] = mem0.getD a []

/-! ## Method calls on a context that is not the global one -/

/-- The receiver of a method call: the context the package variable
GlobalAppCtx points to, or another context. -/
inductive Receiver
  | GlobalAppCtx
  | other
  deriving DecidableEq, Repr

/-- The package state together with one more context, a different object from
the one GlobalAppCtx points to. -/
structure TwoContexts where
  package : Package
  other : appContext

/-- The context a receiver points to. -/
def TwoContexts.deref (w : TwoContexts) : Receiver → appContext
  | .GlobalAppCtx => w.package.GlobalAppCtx
  | .other => w.other

/-- The call ctx.AddShutdownHook(name, f) with ctx the given receiver. -/
def AddShutdownHookOn (w : TwoContexts) (ctx : Receiver) (name : String) (f : Option Nat) :
    TwoContexts :=
  match ctx with
  | .GlobalAppCtx =>
    { w with package :=
        { w.package with GlobalAppCtx := AddShutdownHook w.package.GlobalAppCtx name f } }
  | .other => { w with other := AddShutdownHook w.other name f }

/-- The call ctx.GetShutdownHook(name) with ctx the given receiver. -/
def GetShutdownHookOn (w : TwoContexts) (ctx : Receiver) (name : String) : Option Nat :=
  GetShutdownHook (w.deref ctx) name

/-- The call ctx.ListShutdownHooks() with ctx the given receiver. -/
def ListShutdownHooksOn (w : TwoContexts) (ctx : Receiver) : GoMap Nat :=
  ListShutdownHooks (w.deref ctx)

/-- The call ctx.RemoveShutdownHook(name) with ctx the given receiver: the
body of RemoveShutdownHook runs on the package state whatever the receiver. -/
def RemoveShutdownHookOn (w : TwoContexts) (_ctx : Receiver) (name : String) :
    TwoContexts × Bool :=
  let r := RemoveShutdownHook w.package name
  ({ w with package := r.1 }, r.2)

/-! ## Key consistency of the registry -/

/-- Every entry stored at registry[t][n] has type t and name n. -/
def KeyConsistent (ctx : appContext) : Prop :=
  ∀ t m n e, ctx.entries.get? t = some m → m.get? n = some e →
    e.GetType = t ∧ e.GetName = n

/-- The operations that change the registry. -/
inductive RegistryOp
  | AddEntry (entry : Option Entry)
  | RemoveEntry (entry : Option Entry)
  | RemoveEntryByType (entryType : String)
  | clearEntries
  deriving DecidableEq, Repr

/-- One operation applied to a context. -/
def RegistryOp.apply (ctx : appContext) : RegistryOp → appContext
  | .AddEntry entry => rkentry.AddEntry ctx entry
  | .RemoveEntry entry => rkentry.RemoveEntry ctx entry
  | .RemoveEntryByType entryType => rkentry.RemoveEntryByType ctx entryType
  | .clearEntries => rkentry.clearEntries ctx

/-- A sequence of operations applied to a context, first to last. -/
def applyRegistryOps (ctx : appContext) : List RegistryOp → appContext
  | [] => ctx
  | op :: ops => applyRegistryOps (op.apply ctx) ops

end rkentry

/-! ## Lemmas on Go maps -/

namespace rkentry

namespace GoMap

variable {V : Type}

theorem get?_set_self (m : GoMap V) (k : String) (v : V) : (m.set k v).get? k = some v := by
  induction m with
  | nil => simp [set, get?]
  | cons p m ih =>
    obtain ⟨k1, v1⟩ := p
    by_cases h : k1 = k
    · simp [set, get?, h]
    · simp [set, get?, h, ih]

theorem get?_set_ne (m : GoMap V) {k k2 : String} (v : V) (h : k ≠ k2) :
    (m.set k v).get? k2 = m.get? k2 := by
  induction m with
  | nil => simp [set, get?, h]
  | cons p m ih =>
    obtain ⟨k1, v1⟩ := p
    by_cases h1 : k1 = k
    · subst h1
      simp [set, get?, h]
    · by_cases h2 : k1 = k2
      · subst h2
        simp [set, get?, h1]
      · simp [set, get?, h1, h2, ih]

theorem get?_eq_none_iff (m : GoMap V) (k : String) :
    m.get? k = none ↔ ∀ p ∈ m, p.1 ≠ k := by
  induction m with
  | nil => simp [get?]
  | cons p m ih =>
    obtain ⟨k1, v1⟩ := p
    by_cases h : k1 = k
    · simp [get?, h]
    · simp [get?, h, ih]

theorem get?_delete_self (m : GoMap V) (k : String) : (m.delete k).get? k = none := by
  rw [get?_eq_none_iff]
  intro p hp
  have := (List.mem_filter.mp hp).2
  simpa using this

theorem get?_delete_ne (m : GoMap V) {k k2 : String} (h : k ≠ k2) :
    (m.delete k).get? k2 = m.get? k2 := by
  induction m with
  | nil => simp [delete, get?]
  | cons p m ih =>
    obtain ⟨k1, v1⟩ := p
    simp only [delete] at ih
    by_cases h1 : k1 = k
    · subst h1
      simpa [delete, List.filter_cons, get?, h] using ih
    · by_cases h2 : k1 = k2
      · subst h2
        simp [delete, List.filter_cons, get?, h1]
      · simpa [delete, List.filter_cons, get?, h1, h2] using ih

theorem delete_delete (m : GoMap V) (k : String) : (m.delete k).delete k = m.delete k := by
  simp [delete, List.filter_filter]

theorem delete_of_get?_none (m : GoMap V) (k : String) (h : m.get? k = none) :
    m.delete k = m := by
  rw [get?_eq_none_iff] at h
  unfold delete
  rw [List.filter_eq_self]
  intro p hp
  simpa using h p hp

theorem set_of_get?_some (m : GoMap V) (k : String) (v : V) (h : m.get? k = some v) :
    m.set k v = m := by
  induction m with
  | nil => simp [get?] at h
  | cons p m ih =>
    obtain ⟨k1, v1⟩ := p
    by_cases h1 : k1 = k
    · simp only [get?, h1, if_true, Option.some.injEq] at h
      simp [set, h1, h]
    · simp only [get?, h1, if_false] at h
      simp [set, h1, ih h]

theorem set_set (m : GoMap V) (k : String) (v w : V) : (m.set k v).set k w = m.set k w := by
  induction m with
  | nil => simp [set]
  | cons p m ih =>
    obtain ⟨k1, v1⟩ := p
    by_cases h1 : k1 = k
    · simp [set, h1]
    · simp [set, h1, ih]

theorem keys_set (m : GoMap V) (k : String) (v : V) :
    (m.set k v).map Prod.fst
      = if k ∈ m.map Prod.fst then m.map Prod.fst else m.map Prod.fst ++ [k] := by
  induction m with
  | nil => simp [set]
  | cons p m ih =>
    obtain ⟨k1, v1⟩ := p
    by_cases h1 : k1 = k
    · subst h1
      simp [set]
    · have h2 : ¬ k = k1 := fun h => h1 h.symm
      simp only [set, h1, if_false, List.map_cons, ih, List.mem_cons, h2, false_or]
      split <;> simp

theorem WF_set (m : GoMap V) (k : String) (v : V) (h : m.WF) : (m.set k v).WF := by
  unfold WF at h ⊢
  rw [keys_set]
  split
  · exact h
  · rename_i hk
    exact List.Nodup.append h (List.nodup_singleton k) (by simpa using hk)

theorem WF_delete (m : GoMap V) (k : String) (h : m.WF) : (m.delete k).WF := by
  unfold WF at h ⊢
  unfold delete
  exact (List.Nodup.sublist (List.Sublist.map _ (List.filter_sublist _)) h)

end GoMap

/-! ## Lemmas on the registry -/

theorem GetEntry_AddEntry_self (ctx : appContext) (e : Entry) :
    GetEntry (AddEntry ctx (some e)) e.GetType e.GetName = some e := by
  cases h : ctx.entries.get? e.GetType with
  | none => simp [AddEntry, GetEntry, h, GoMap.get?_set_self, GoMap.get?]
  | some v => simp [AddEntry, GetEntry, h, GoMap.get?_set_self]

theorem GetEntry_AddEntry_ne (ctx : appContext) (e : Entry) (t n : String)
    (h : t ≠ e.GetType ∨ n ≠ e.GetName) :
    GetEntry (AddEntry ctx (some e)) t n = GetEntry ctx t n := by
  by_cases ht : t = e.GetType
  · subst ht
    have hn : e.GetName ≠ n := by
      rcases h with h | h
      · exact absurd rfl h
      · exact fun h2 => h h2.symm
    cases hv : ctx.entries.get? e.GetType with
    | none => simp [AddEntry, GetEntry, hv, GoMap.get?_set_self, GoMap.get?, hn]
    | some v => simp [AddEntry, GetEntry, hv, GoMap.get?_set_self, GoMap.get?_set_ne v e hn]
  · have ht2 : e.GetType ≠ t := fun h2 => ht h2.symm
    cases hv : ctx.entries.get? e.GetType with
    | none => simp [AddEntry, GetEntry, hv, GoMap.get?_set_ne _ _ ht2]
    | some v => simp [AddEntry, GetEntry, hv, GoMap.get?_set_ne _ _ ht2]

theorem GetEntry_RemoveEntry_self (ctx : appContext) (e : Entry) :
    GetEntry (RemoveEntry ctx (some e)) e.GetType e.GetName = none := by
  cases hv : ctx.entries.get? e.GetType with
  | none => simp [RemoveEntry, GetEntry, hv]
  | some v => simp [RemoveEntry, GetEntry, hv, GoMap.get?_set_self, GoMap.get?_delete_self]

theorem GetEntry_RemoveEntry_ne (ctx : appContext) (e : Entry) (t n : String)
    (h : t ≠ e.GetType ∨ n ≠ e.GetName) :
    GetEntry (RemoveEntry ctx (some e)) t n = GetEntry ctx t n := by
  cases hv : ctx.entries.get? e.GetType with
  | none => simp [RemoveEntry, GetEntry, hv]
  | some v =>
    by_cases ht : t = e.GetType
    · subst ht
      have hn : e.GetName ≠ n := by
        rcases h with h | h
        · exact absurd rfl h
        · exact fun h2 => h h2.symm
      simp [RemoveEntry, GetEntry, GoMap.get?_set_self, GoMap.get?_delete_ne v hn, hv]
    · have ht2 : e.GetType ≠ t := fun h2 => ht h2.symm
      simp [RemoveEntry, GetEntry, hv, GoMap.get?_set_ne _ _ ht2]

theorem RemoveEntry_of_GetEntry_none (ctx : appContext) (e : Entry)
    (h : GetEntry ctx e.GetType e.GetName = none) : RemoveEntry ctx (some e) = ctx := by
  cases hv : ctx.entries.get? e.GetType with
  | none => simp [RemoveEntry, hv]
  | some v =>
    simp only [GetEntry, hv] at h
    simp only [RemoveEntry, hv, GoMap.delete_of_get?_none v _ h,
      GoMap.set_of_get?_some _ _ _ hv]

theorem RemoveEntry_RemoveEntry (ctx : appContext) (e : Entry) :
    RemoveEntry (RemoveEntry ctx (some e)) (some e) = RemoveEntry ctx (some e) :=
  RemoveEntry_of_GetEntry_none _ e (GetEntry_RemoveEntry_self ctx e)

/-! ## The registry: AddEntry, GetEntry, RemoveEntry, RemoveEntryByType, ListEntriesByType -/

/-- C1: for every registry state and every non-nil entry e, GetEntry at the
type and name of e returns e after AddEntry(e); when AddEntry(e2) follows with
another entry e2 of the same type and name, GetEntry at that type and name
returns e2 and no longer e. -/
theorem AddEntry_GetEntry_replace (ctx : appContext) (e e2 : Entry) :
    GetEntry (AddEntry ctx (some e)) e.GetType e.GetName = some e ∧
    (e2 ≠ e → e2.GetType = e.GetType → e2.GetName = e.GetName →
      GetEntry (AddEntry (AddEntry ctx (some e)) (some e2)) e.GetType e.GetName = some e2 ∧
      GetEntry (AddEntry (AddEntry ctx (some e)) (some e2)) e.GetType e.GetName ≠ some e) := by
  refine ⟨GetEntry_AddEntry_self ctx e, ?_⟩
  intro hne ht hn
  have h := GetEntry_AddEntry_self (AddEntry ctx (some e)) e2
  rw [ht, hn] at h
  refine ⟨h, ?_⟩
  rw [h]
  intro heq
  exact hne (Option.some.inj heq)

/-- Witness of C1: two EntryMock instances named "a" added to an empty registry. -/
theorem AddEntry_GetEntry_replace_witness :
    EntryMock 11 "a" ≠ EntryMock 10 "a" ∧
    GetEntry (AddEntry emptyCtx (some (EntryMock 10 "a"))) "mock" "a" = some (EntryMock 10 "a") ∧
    GetEntry (AddEntry (AddEntry emptyCtx (some (EntryMock 10 "a"))) (some (EntryMock 11 "a")))
      "mock" "a" = some (EntryMock 11 "a") ∧
    GetEntry (AddEntry (AddEntry emptyCtx (some (EntryMock 10 "a"))) (some (EntryMock 11 "a")))
      "mock" "a" ≠ some (EntryMock 10 "a") :=
  have h := AddEntry_GetEntry_replace emptyCtx (EntryMock 10 "a") (EntryMock 11 "a")
  have hne : EntryMock 11 "a" ≠ EntryMock 10 "a" := by decide
  ⟨hne, h.1, (h.2 hne rfl rfl).1, (h.2 hne rfl rfl).2⟩

/-- C6: for every registry state and every type t, ListEntriesByType(t) is a
non-nil empty map after RemoveEntryByType(t); a second RemoveEntryByType(t)
leaves the context as the first one left it; and RemoveEntryByType(t) leaves
the context unchanged when t is not a key of the registry. -/
theorem RemoveEntryByType_empty_idempotent (ctx : appContext) (t : String) :
    ListEntriesByType (RemoveEntryByType ctx t) t = some [] ∧
    RemoveEntryByType (RemoveEntryByType ctx t) t = RemoveEntryByType ctx t ∧
    (ctx.entries.get? t = none → RemoveEntryByType ctx t = ctx) := by
  refine ⟨?_, ?_, ?_⟩
  · simp [ListEntriesByType, RemoveEntryByType, GoMap.get?_delete_self]
  · simp [RemoveEntryByType, GoMap.delete_delete]
  · intro h
    simp [RemoveEntryByType, GoMap.delete_of_get?_none _ _ h]

/-- Witness of C6: a registry holding one EntryMock, asked to remove the type
"non-exist" that was never present. -/
theorem RemoveEntryByType_empty_idempotent_witness :
    (AddEntry emptyCtx (some (EntryMock 10 "a"))).entries.get? "non-exist" = none ∧
    RemoveEntryByType (AddEntry emptyCtx (some (EntryMock 10 "a"))) "non-exist"
      = AddEntry emptyCtx (some (EntryMock 10 "a")) ∧
    ListEntriesByType (RemoveEntryByType (AddEntry emptyCtx (some (EntryMock 10 "a"))) "mock")
      "mock" = some [] :=
  have hmiss : (AddEntry emptyCtx (some (EntryMock 10 "a"))).entries.get? "non-exist" = none := by
    decide
  ⟨hmiss,
   (RemoveEntryByType_empty_idempotent (AddEntry emptyCtx (some (EntryMock 10 "a")))
      "non-exist").2.2 hmiss,
   (RemoveEntryByType_empty_idempotent (AddEntry emptyCtx (some (EntryMock 10 "a"))) "mock").1⟩

/-- C7: for every registry state, ListEntriesByType(t) is never the nil map;
for a type t that is not a key of the registry it is a non-nil map of length 0;
for a type that is a key it is the map stored for that type. -/
theorem ListEntriesByType_present (ctx : appContext) (t : String) :
    ListEntriesByType ctx t ≠ none ∧
    (ctx.entries.get? t = none →
      ListEntriesByType ctx t = some [] ∧
      ∀ m, ListEntriesByType ctx t = some m → m.len = 0) ∧
    (∀ v, ctx.entries.get? t = some v → ListEntriesByType ctx t = some v) := by
  refine ⟨?_, ?_, ?_⟩
  · cases h : ctx.entries.get? t <;> simp [ListEntriesByType, h]
  · intro h
    refine ⟨by simp [ListEntriesByType, h], ?_⟩
    intro m hm
    simp only [ListEntriesByType, h, Option.some.injEq] at hm
    subst hm
    rfl
  · intro v h
    simp [ListEntriesByType, h]

/-- Witness of C7: a registry holding one EntryMock, listed at the unknown type
"non-exist" and at its own type "mock". -/
theorem ListEntriesByType_present_witness :
    (AddEntry emptyCtx (some (EntryMock 10 "a"))).entries.get? "non-exist" = none ∧
    ListEntriesByType (AddEntry emptyCtx (some (EntryMock 10 "a"))) "non-exist" = some [] ∧
    ListEntriesByType (AddEntry emptyCtx (some (EntryMock 10 "a"))) "mock"
      = some [("a", EntryMock 10 "a")] :=
  have hmiss : (AddEntry emptyCtx (some (EntryMock 10 "a"))).entries.get? "non-exist" = none := by
    decide
  ⟨hmiss,
   ((ListEntriesByType_present (AddEntry emptyCtx (some (EntryMock 10 "a")))
      "non-exist").2.1 hmiss).1,
   (ListEntriesByType_present (AddEntry emptyCtx (some (EntryMock 10 "a"))) "mock").2.2
      [("a", EntryMock 10 "a")] (by decide)⟩

/-- C8: for every registry state, AddEntry(nil) leaves the context unchanged;
the two-level map returned by ListEntries() is the same before and after, and
so is its length. -/
theorem AddEntry_nil_unchanged (ctx : appContext) :
    AddEntry ctx none = ctx ∧
    ListEntries (AddEntry ctx none) = ListEntries ctx ∧
    (ListEntries (AddEntry ctx none)).len = (ListEntries ctx).len :=
  ⟨rfl, rfl, rfl⟩

/-- C9: for every registry state and every non-nil entry e, GetEntry at the
type and name of e is nil after RemoveEntry(e); GetEntry at every other type
and name pair is as before; RemoveEntry(nil) changes nothing; RemoveEntry(e)
changes nothing when nothing is stored at the type and name of e; and
RemoveEntry(e) applied twice gives the context it gives applied once. -/
theorem RemoveEntry_removes_exactly (ctx : appContext) (e : Entry) :
    GetEntry (RemoveEntry ctx (some e)) e.GetType e.GetName = none ∧
    (∀ t n, t ≠ e.GetType ∨ n ≠ e.GetName →
      GetEntry (RemoveEntry ctx (some e)) t n = GetEntry ctx t n) ∧
    RemoveEntry ctx none = ctx ∧
    (GetEntry ctx e.GetType e.GetName = none → RemoveEntry ctx (some e) = ctx) ∧
    RemoveEntry (RemoveEntry ctx (some e)) (some e) = RemoveEntry ctx (some e) :=
  ⟨GetEntry_RemoveEntry_self ctx e, GetEntry_RemoveEntry_ne ctx e, rfl,
   RemoveEntry_of_GetEntry_none ctx e, RemoveEntry_RemoveEntry ctx e⟩

/-- Witness of C9: a registry holding the EntryMock instances "a" and "b";
removing "a" keeps "b", and removing the absent "c" changes nothing. -/
theorem RemoveEntry_removes_exactly_witness :
    GetEntry (RemoveEntry (AddEntry (AddEntry emptyCtx (some (EntryMock 10 "a")))
      (some (EntryMock 11 "b"))) (some (EntryMock 10 "a"))) "mock" "b" = some (EntryMock 11 "b") ∧
    GetEntry (AddEntry (AddEntry emptyCtx (some (EntryMock 10 "a")))
      (some (EntryMock 11 "b"))) "mock" "c" = none ∧
    RemoveEntry (AddEntry (AddEntry emptyCtx (some (EntryMock 10 "a")))
      (some (EntryMock 11 "b"))) (some (EntryMock 12 "c"))
      = AddEntry (AddEntry emptyCtx (some (EntryMock 10 "a"))) (some (EntryMock 11 "b")) :=
  have hmiss : GetEntry (AddEntry (AddEntry emptyCtx (some (EntryMock 10 "a")))
      (some (EntryMock 11 "b"))) "mock" "c" = none := by decide
  ⟨((RemoveEntry_removes_exactly (AddEntry (AddEntry emptyCtx (some (EntryMock 10 "a")))
      (some (EntryMock 11 "b"))) (EntryMock 10 "a")).2.1 "mock" "b"
      (Or.inr (by decide))).trans (by decide),
   hmiss,
   (RemoveEntry_removes_exactly (AddEntry (AddEntry emptyCtx (some (EntryMock 10 "a")))
      (some (EntryMock 11 "b"))) (EntryMock 12 "c")).2.2.2.1 hmiss⟩

/-- C10: for every registry state and every non-nil entry e, AddEntry(e)
changes GetEntry only at the type and name of e: at every other type and name
pair GetEntry returns what it returned before, in particular at the name of e
under any other type. -/
theorem AddEntry_frame (ctx : appContext) (e : Entry) :
    (∀ t n, t ≠ e.GetType ∨ n ≠ e.GetName →
      GetEntry (AddEntry ctx (some e)) t n = GetEntry ctx t n) ∧
    (∀ t, t ≠ e.GetType →
      GetEntry (AddEntry ctx (some e)) t e.GetName = GetEntry ctx t e.GetName) :=
  ⟨GetEntry_AddEntry_ne ctx e, fun t ht => GetEntry_AddEntry_ne ctx e t e.GetName (Or.inl ht)⟩

/-- Witness of C10: an EntryMock named "a" is added to a registry that holds an
entry of the same name under the type "ConfigEntry"; that entry stays. -/
theorem AddEntry_frame_witness :
    "ConfigEntry" ≠ (EntryMock 10 "a").GetType ∧
    GetEntry (AddEntry (AddEntry emptyCtx (some (foreignEntry 11 "ConfigEntry" "a")))
      (some (EntryMock 10 "a"))) "ConfigEntry" "a" = some (foreignEntry 11 "ConfigEntry" "a") :=
  have hne : "ConfigEntry" ≠ (EntryMock 10 "a").GetType := by decide
  ⟨hne,
   ((AddEntry_frame (AddEntry emptyCtx (some (foreignEntry 11 "ConfigEntry" "a")))
      (EntryMock 10 "a")).2 "ConfigEntry" hne).trans (by decide)⟩

/-! ## Typed accessors and default entries -/

theorem rangeDefault_none_flagged (T : GoType) (res : Entry) (l : List Entry)
    (hT : ∀ v ∈ l, v.dynType = T) (hno : ∀ v ∈ l, v.IsDefault = false) :
    rangeDefault T res l = .ok res := by
  induction l with
  | nil => rfl
  | cons v rest ih =>
    have h1 : v.dynType = T := hT v (List.mem_cons_self _ _)
    have h2 : v.IsDefault = false := hno v (List.mem_cons_self _ _)
    have ih2 := ih (fun w hw => hT w (List.mem_cons_of_mem _ hw))
      (fun w hw => hno w (List.mem_cons_of_mem _ hw))
    simp [rangeDefault, typeAssert, h1, h2, ih2]

theorem rangeDefault_one_flagged (T : GoType) (res e : Entry) (l : List Entry)
    (hT : ∀ v ∈ l, v.dynType = T) (he : e ∈ l) (hd : e.IsDefault = true)
    (huniq : ∀ v ∈ l, v.IsDefault = true → v = e) :
    rangeDefault T res l = .ok e := by
  induction l with
  | nil => simp at he
  | cons v rest ih =>
    have h1 : v.dynType = T := hT v (List.mem_cons_self _ _)
    by_cases h2 : v.IsDefault = true
    · have hv : v = e := huniq v (List.mem_cons_self _ _) h2
      subst hv
      simp [rangeDefault, typeAssert, h1, h2]
    · have he2 : e ∈ rest := by
        rcases List.mem_cons.mp he with h | h
        · subst h
          exact absurd hd h2
        · exact h
      have ih2 := ih (fun w hw => hT w (List.mem_cons_of_mem _ hw)) he2
        (fun w hw => huniq w (List.mem_cons_of_mem _ hw))
      simp [rangeDefault, typeAssert, h1, h2, ih2]

theorem stored_eq_GetEntry (ctx : appContext) (t n : String) :
    ((ctx.entries.get? t).getD []).get? n = GetEntry ctx t n := by
  cases h : ctx.entries.get? t <;> simp [GetEntry, h, GoMap.get?]

/-- C2: the code evaluated where the claim fails.  Whatever the registry state,
the name and the values of the entry type constants, once a user defined entry
(an EntryMock) whose GetType() is the config, logger or event type has been
inserted with AddEntry, the accessor GetConfigEntry, GetLoggerEntry or
GetEventEntry called with its name panics in the type assertion instead of
returning nil. -/
theorem typed_accessors_panic_on_other_variant
    (ConfigEntryType LoggerEntryType EventEntryType name : String) (ptr : Nat)
    (ctx : appContext) :
    GetConfigEntry ConfigEntryType
        (AddEntry ctx (some (foreignEntry ptr ConfigEntryType name))) name
      = .error (Panic.interfaceConversion (GoType.userDefined "EntryMock") GoType.ConfigEntry) ∧
    GetLoggerEntry LoggerEntryType
        (AddEntry ctx (some (foreignEntry ptr LoggerEntryType name))) name
      = .error (Panic.interfaceConversion (GoType.userDefined "EntryMock") GoType.LoggerEntry) ∧
    GetEventEntry EventEntryType
        (AddEntry ctx (some (foreignEntry ptr EventEntryType name))) name
      = .error (Panic.interfaceConversion (GoType.userDefined "EntryMock") GoType.EventEntry) := by
  have h := fun T => GetEntry_AddEntry_self ctx (foreignEntry ptr T name)
  simp only [foreignEntry, Entry.GetType, Entry.GetName] at h
  refine ⟨?_, ?_, ?_⟩
  · simp only [GetConfigEntry, stored_eq_GetEntry, foreignEntry, h]
    rfl
  · simp only [GetLoggerEntry, stored_eq_GetEntry, foreignEntry, h]
    rfl
  · simp only [GetEventEntry, stored_eq_GetEntry, foreignEntry, h]
    rfl

/-- C5: for every registry state in which all entries stored under the logger
type are logger entries, GetLoggerEntryDefault() returns LoggerEntryStdout when
none of them is flagged IsDefault, and returns the flagged entry when exactly
one of them is flagged; likewise GetEventEntryDefault() with the event type and
EventEntryStdout.  The result does not depend on the visiting order. -/
theorem default_entry_fallback_or_flagged (LoggerEntryType EventEntryType : String)
    (LoggerEntryStdout EventEntryStdout : Entry) (ctx : appContext) :
    ((∀ v ∈ ((ctx.entries.get? LoggerEntryType).getD []).values,
        v.dynType = GoType.LoggerEntry) →
      ((∀ v ∈ ((ctx.entries.get? LoggerEntryType).getD []).values, v.IsDefault = false) →
        GetLoggerEntryDefault LoggerEntryType LoggerEntryStdout ctx = .ok LoggerEntryStdout) ∧
      (∀ e ∈ ((ctx.entries.get? LoggerEntryType).getD []).values, e.IsDefault = true →
        (∀ v ∈ ((ctx.entries.get? LoggerEntryType).getD []).values,
          v.IsDefault = true → v = e) →
        GetLoggerEntryDefault LoggerEntryType LoggerEntryStdout ctx = .ok e)) ∧
    ((∀ v ∈ ((ctx.entries.get? EventEntryType).getD []).values,
        v.dynType = GoType.EventEntry) →
      ((∀ v ∈ ((ctx.entries.get? EventEntryType).getD []).values, v.IsDefault = false) →
        GetEventEntryDefault EventEntryType EventEntryStdout ctx = .ok EventEntryStdout) ∧
      (∀ e ∈ ((ctx.entries.get? EventEntryType).getD []).values, e.IsDefault = true →
        (∀ v ∈ ((ctx.entries.get? EventEntryType).getD []).values,
          v.IsDefault = true → v = e) →
        GetEventEntryDefault EventEntryType EventEntryStdout ctx = .ok e)) := by
  refine ⟨fun hT => ⟨fun hno => ?_, fun e he hd huniq => ?_⟩,
          fun hT => ⟨fun hno => ?_, fun e he hd huniq => ?_⟩⟩
  · exact rangeDefault_none_flagged _ _ _ hT hno
  · exact rangeDefault_one_flagged _ _ e _ hT he hd huniq
  · exact rangeDefault_none_flagged _ _ _ hT hno
  · exact rangeDefault_one_flagged _ _ e _ hT he hd huniq

/-- Witness of C5: among three logger entries the one flagged entry "l2" is
returned, and with two unflagged event entries the stdout fallback is. -/
theorem default_entry_fallback_or_flagged_witness :
    GetLoggerEntryDefault "LoggerEntry" (loggerEntry 1 "stdout" false) loggerCtx
      = .ok (loggerEntry 21 "l2" true) ∧
    GetEventEntryDefault "EventEntry" (eventEntry 2 "stdout" false) loggerCtx
      = .ok (eventEntry 2 "stdout" false) :=
  have h := default_entry_fallback_or_flagged "LoggerEntry" "EventEntry"
    (loggerEntry 1 "stdout" false) (eventEntry 2 "stdout" false) loggerCtx
  ⟨(h.1 (by decide)).2 (loggerEntry 21 "l2" true) (by decide) rfl (by decide),
   (h.2 (by decide)).1 (by decide)⟩

/-! ## The bootstrap passes -/

theorem bootstrapEntries_label (B : Entry → Context → appContext → appContext) (c : Context)
    (l : List Entry) (g : appContext) :
    (bootstrapEntries B c l g).2.map Call.label = l.map Label.Bootstrap := by
  induction l generalizing g with
  | nil => rfl
  | cons v rest ih => simp [bootstrapEntries, Call.label, ih]

theorem bootstrapEntries_regIndex (B : Entry → Context → appContext → appContext) (c : Context)
    (l : List Entry) (g : appContext) :
    (bootstrapEntries B c l g).2.filterMap Call.regIndex = [] := by
  induction l generalizing g with
  | nil => rfl
  | cons v rest ih => simp [bootstrapEntries, Call.regIndex, ih]

theorem bootstrapEntries_returned (B : Entry → Context → appContext → appContext) (c : Context)
    (l : List Entry) (g : appContext) :
    (bootstrapEntries B c l g).2.filterMap Call.returned = [] := by
  induction l generalizing g with
  | nil => rfl
  | cons v rest ih => simp [bootstrapEntries, Call.returned, ih]

theorem bootstrapEntries_countP (B : Entry → Context → appContext → appContext) (c : Context)
    (l : List Entry) (g : appContext) :
    (bootstrapEntries B c l g).2.countP Call.isBootstrap = l.length := by
  induction l generalizing g with
  | nil => rfl
  | cons v rest ih => simp [bootstrapEntries, Call.isBootstrap, ih]

theorem bootstrapEntries_no_regFunc (B : Entry → Context → appContext → appContext)
    (c : Context) (l : List Entry) (g : appContext) (i : Nat) (raw : Raw) (g1 : appContext)
    (m : GoMap Entry) : Call.regFunc i raw g1 m ∉ (bootstrapEntries B c l g).2 := by
  induction l generalizing g with
  | nil => simp [bootstrapEntries]
  | cons v rest ih => simp [bootstrapEntries, ih]

theorem bootstrapRegFuncs_regIndex (B : Entry → Context → appContext → appContext) (raw : Raw)
    (c : Context) (fs : List RegFunc) (i : Nat) (g : appContext) :
    (bootstrapRegFuncs B raw c fs i g).2.filterMap Call.regIndex = List.range' i fs.length := by
  induction fs generalizing i g with
  | nil => rfl
  | cons f fs ih =>
    simp [bootstrapRegFuncs, Call.regIndex, List.filterMap_append, bootstrapEntries_regIndex,
      ih, List.range'_succ]

theorem bootstrapRegFuncs_regFunc_mem (B : Entry → Context → appContext → appContext)
    (raw : Raw) (c : Context) (fs : List RegFunc) (i : Nat) (g : appContext)
    (j : Nat) (raw1 : Raw) (g1 : appContext) (m : GoMap Entry)
    (h : Call.regFunc j raw1 g1 m ∈ (bootstrapRegFuncs B raw c fs i g).2) :
    raw1 = raw ∧ i ≤ j ∧ ∃ f, fs[j - i]? = some f ∧ (f.call raw g1).1 = m := by
  induction fs generalizing i g with
  | nil => simp [bootstrapRegFuncs] at h
  | cons f fs ih =>
    simp only [bootstrapRegFuncs, List.mem_cons, List.mem_append] at h
    rcases h with h | h | h
    · injection h with h1 h2 h3 h4
      subst h1 h2 h3 h4
      exact ⟨rfl, le_refl _, f, by simp, rfl⟩
    · exact absurd h (bootstrapEntries_no_regFunc _ _ _ _ _ _ _ _)
    · obtain ⟨hr, hle, f2, hf2, hm⟩ := ih _ _ h
      refine ⟨hr, by omega, f2, ?_, hm⟩
      have hji : j - i = (j - (i + 1)) + 1 := by omega
      rw [hji, List.getElem?_cons_succ]
      exact hf2

theorem bootstrapRegFuncs_label (B : Entry → Context → appContext → appContext) (raw : Raw)
    (c : Context) (fs : List RegFunc) (i : Nat) (g : appContext) :
    (bootstrapRegFuncs B raw c fs i g).2.map Call.label
      = (((bootstrapRegFuncs B raw c fs i g).2.filterMap Call.returned).enumFrom i).flatMap
          (fun im => Label.regFunc im.1 raw im.2 :: im.2.values.map Label.Bootstrap) := by
  induction fs generalizing i g with
  | nil => rfl
  | cons f fs ih =>
    simp only [bootstrapRegFuncs, List.map_cons, List.map_append, List.filterMap_cons,
      Call.returned, Call.label, List.filterMap_append, bootstrapEntries_returned,
      List.nil_append, List.enumFrom_cons, List.flatMap_cons, bootstrapEntries_label,
      List.cons_append]
    rw [← ih]

theorem bootstrapRegFuncs_countP (B : Entry → Context → appContext → appContext) (raw : Raw)
    (c : Context) (fs : List RegFunc) (i : Nat) (g : appContext) :
    (bootstrapRegFuncs B raw c fs i g).2.countP Call.isBootstrap
      = (((bootstrapRegFuncs B raw c fs i g).2.filterMap Call.returned).map GoMap.len).sum := by
  induction fs generalizing i g with
  | nil => rfl
  | cons f fs ih =>
    simp only [bootstrapRegFuncs, List.countP_cons, List.countP_append, Call.isBootstrap,
      bootstrapEntries_countP, List.filterMap_cons, Call.returned, List.filterMap_append,
      bootstrapEntries_returned, List.nil_append, List.map_cons, List.sum_cons, ih]
    simp [GoMap.len, GoMap.values]

theorem bootstrapRegFuncs_inListOrder (B : Entry → Context → appContext → appContext)
    (raw : Raw) (c : Context) (fs : List RegFunc) (g : appContext) :
    InListOrderOncePerEntry raw fs (bootstrapRegFuncs B raw c fs 0 g).2 := by
  refine ⟨?_, ?_, ?_, ?_, ?_⟩
  · rw [bootstrapRegFuncs_regIndex, List.range_eq_range']
  · intro i raw1 g1 m h
    obtain ⟨hr, _, f, hf, hm⟩ := bootstrapRegFuncs_regFunc_mem B raw c fs 0 g i raw1 g1 m h
    exact ⟨hr, f, by simpa using hf, hm⟩
  · exact bootstrapRegFuncs_label B raw c fs 0 g
  · exact bootstrapRegFuncs_countP B raw c fs 0 g
  · intro h
    subst h
    rfl

/-- C4: for every registration function list and every raw input, each of the
four passes BootstrapPluginEntryFromYAML, BootstrapBuiltInEntryFromYAML,
BootstrapWebFrameEntryFromYAML and BootstrapUserEntryFromYAML calls every
function of its list once with raw, in list order, calls Bootstrap once per
entry of the map a function returned, after that function and before the next
one, and makes no other call: the number of Bootstrap calls is the sum of the
sizes of the returned maps, and no call is made for an empty list. -/
theorem bootstrap_in_list_order_once_per_entry
    (Bootstrap : Entry → Context → appContext → appContext) (raw : Raw) (p : Package) :
    InListOrderOncePerEntry raw p.pluginRegFuncList
      (BootstrapPluginEntryFromYAML Bootstrap raw p).2 ∧
    InListOrderOncePerEntry raw p.builtinRegFuncList
      (BootstrapBuiltInEntryFromYAML Bootstrap raw p).2 ∧
    InListOrderOncePerEntry raw p.webFrameRegFuncList
      (BootstrapWebFrameEntryFromYAML Bootstrap raw p).2 ∧
    InListOrderOncePerEntry raw p.userDefRegFuncList
      (BootstrapUserEntryFromYAML Bootstrap raw p).2 :=
  ⟨bootstrapRegFuncs_inListOrder _ _ _ _ _, bootstrapRegFuncs_inListOrder _ _ _ _ _,
   bootstrapRegFuncs_inListOrder _ _ _ _ _, bootstrapRegFuncs_inListOrder _ _ _ _ _⟩

/-- Witness of C4: a plugin list of two functions, each returning one entry;
the functions are called in order and Bootstrap is called twice. -/
theorem bootstrap_in_list_order_once_per_entry_witness :
    (BootstrapPluginEntryFromYAML noopBootstrap []
        (pluginPackage [buildOnlyRegFunc, insertingRegFunc])).2.filterMap Call.regIndex
      = [0, 1] ∧
    (BootstrapPluginEntryFromYAML noopBootstrap []
        (pluginPackage [buildOnlyRegFunc, insertingRegFunc])).2.countP Call.isBootstrap = 2 :=
  have h := bootstrap_in_list_order_once_per_entry noopBootstrap []
    (pluginPackage [buildOnlyRegFunc, insertingRegFunc])
  ⟨h.1.1.trans (by decide), h.1.2.2.2.1.trans (by decide)⟩

theorem bootstrapEntries_keeps (B : Entry → Context → appContext → appContext) (c : Context)
    (v : Entry) (hB : ∀ w, KeepsEntry v (B w c)) (l : List Entry) (g : appContext)
    (h : GetEntry g v.GetType v.GetName = some v) :
    GetEntry (bootstrapEntries B c l g).1 v.GetType v.GetName = some v := by
  induction l generalizing g with
  | nil => exact h
  | cons w rest ih => exact ih _ (hB w g h)

theorem bootstrapEntries_present (B : Entry → Context → appContext → appContext) (c : Context)
    (hB : ∀ v w, KeepsEntry v (B w c)) (l : List Entry) (g : appContext)
    (hl : ∀ v ∈ l, GetEntry g v.GetType v.GetName = some v)
    (v : Entry) (c1 : Context) (g1 : appContext)
    (h : Call.Bootstrap v c1 g1 ∈ (bootstrapEntries B c l g).2) :
    GetEntry g1 v.GetType v.GetName = some v := by
  induction l generalizing g with
  | nil => simp [bootstrapEntries] at h
  | cons w rest ih =>
    simp only [bootstrapEntries, List.mem_cons] at h
    rcases h with h | h
    · injection h with h1 h2 h3
      subst h1 h3
      exact hl v (List.mem_cons_self _ _)
    · exact ih _ (fun u hu => hB u w g (hl u (List.mem_cons_of_mem _ hu))) h

theorem bootstrapRegFuncs_keeps (B : Entry → Context → appContext → appContext) (raw : Raw)
    (c : Context) (v : Entry) (hB : ∀ w, KeepsEntry v (B w c)) (fs : List RegFunc)
    (hfs : ∀ f ∈ fs, KeepsEntry v (fun g2 => (f.call raw g2).2)) (i : Nat) (g : appContext)
    (h : GetEntry g v.GetType v.GetName = some v) :
    GetEntry (bootstrapRegFuncs B raw c fs i g).1 v.GetType v.GetName = some v := by
  induction fs generalizing i g with
  | nil => exact h
  | cons f fs ih =>
    simp only [bootstrapRegFuncs]
    apply ih (fun f2 hf2 => hfs f2 (List.mem_cons_of_mem _ hf2))
    apply bootstrapEntries_keeps B c v hB
    exact hfs f (List.mem_cons_self _ _) g h

theorem bootstrapRegFuncs_present (B : Entry → Context → appContext → appContext) (raw : Raw)
    (c : Context) (hB : ∀ v w, KeepsEntry v (B w c)) (fs : List RegFunc)
    (hins : ∀ f ∈ fs, InsertsWhatItReturns raw f) (i : Nat) (g : appContext)
    (v : Entry) (c1 : Context) (g1 : appContext)
    (h : Call.Bootstrap v c1 g1 ∈ (bootstrapRegFuncs B raw c fs i g).2) :
    GetEntry g1 v.GetType v.GetName = some v := by
  induction fs generalizing i g with
  | nil => simp [bootstrapRegFuncs] at h
  | cons f fs ih =>
    simp only [bootstrapRegFuncs, List.mem_cons, List.mem_append] at h
    rcases h with h | h | h
    · cases h
    · exact bootstrapEntries_present B c hB _ _ (hins f (List.mem_cons_self _ _) g) v c1 g1 h
    · exact ih (fun f2 hf2 => hins f2 (List.mem_cons_of_mem _ hf2)) _ _ h

theorem bootstrapRegFuncs_final (B : Entry → Context → appContext → appContext) (raw : Raw)
    (c : Context) (hB : ∀ v w, KeepsEntry v (B w c)) (fs : List RegFunc)
    (hins : ∀ f ∈ fs, InsertsWhatItReturns raw f) (i : Nat) (g : appContext)
    (j : Nat) (raw1 : Raw) (g1 : appContext) (m : GoMap Entry)
    (h : Call.regFunc j raw1 g1 m ∈ (bootstrapRegFuncs B raw c fs i g).2)
    (v : Entry) (hv : v ∈ m.values)
    (hkeep : ∀ f ∈ fs, KeepsEntry v (fun g2 => (f.call raw g2).2)) :
    GetEntry (bootstrapRegFuncs B raw c fs i g).1 v.GetType v.GetName = some v := by
  induction fs generalizing i g with
  | nil => simp [bootstrapRegFuncs] at h
  | cons f fs ih =>
    simp only [bootstrapRegFuncs, List.mem_cons, List.mem_append] at h
    have hkeep2 : ∀ f2 ∈ fs, KeepsEntry v (fun g2 => (f2.call raw g2).2) :=
      fun f2 hf2 => hkeep f2 (List.mem_cons_of_mem _ hf2)
    rcases h with h | h | h
    · injection h with h1 h2 h3 h4
      subst h4
      simp only [bootstrapRegFuncs]
      apply bootstrapRegFuncs_keeps B raw c v (hB v) fs hkeep2
      apply bootstrapEntries_keeps B c v (hB v)
      exact hins f (List.mem_cons_self _ _) g v hv
    · exact absurd h (bootstrapEntries_no_regFunc _ _ _ _ _ _ _ _)
    · simp only [bootstrapRegFuncs]
      exact ih (fun f2 hf2 => hins f2 (List.mem_cons_of_mem _ hf2)) _ _ h hkeep2

theorem bootstrapRegFuncs_registered (B : Entry → Context → appContext → appContext)
    (raw : Raw) (c : Context) (hB : ∀ v w, KeepsEntry v (B w c)) (fs : List RegFunc)
    (hins : ∀ f ∈ fs, InsertsWhatItReturns raw f) (g : appContext) :
    RegisteredBeforeBootstrap raw fs (bootstrapRegFuncs B raw c fs 0 g).1
      (bootstrapRegFuncs B raw c fs 0 g).2 :=
  ⟨fun v c1 g1 h => bootstrapRegFuncs_present B raw c hB fs hins 0 g v c1 g1 h,
   fun j raw1 g1 m h v hv hkeep =>
     bootstrapRegFuncs_final B raw c hB fs hins 0 g j raw1 g1 m h v hv hkeep⟩

/-- C3, the claim as stated fails: a plugin list holding one function that
builds and returns the entry "a" without inserting it.  The pass calls the
function and Bootstrap on the entry, with the entry absent from the registry
when Bootstrap is called and absent after the pass. -/
theorem bootstrap_pass_inserts_nothing :
    (BootstrapPluginEntryFromYAML noopBootstrap [] (pluginPackage [buildOnlyRegFunc])).2
      = [Call.regFunc 0 [] emptyCtx [("a", EntryMock 10 "a")],
         Call.Bootstrap (EntryMock 10 "a") Context.Background emptyCtx] ∧
    GetEntry emptyCtx (EntryMock 10 "a").GetType (EntryMock 10 "a").GetName = none ∧
    GetEntry (BootstrapPluginEntryFromYAML noopBootstrap []
        (pluginPackage [buildOnlyRegFunc])).1.GlobalAppCtx
      (EntryMock 10 "a").GetType (EntryMock 10 "a").GetName ≠ some (EntryMock 10 "a") := by
  decide

/-- C3, amended: the passes insert nothing themselves.  When every function of
the list inserts the entries it returns and Bootstrap neither removes nor
replaces a stored entry, then in each of the four passes every entry is stored
at its type and name when Bootstrap is called on it, and every entry of a
returned map that no function of the list removes or replaces is stored there
after the pass. -/
theorem bootstrap_registered_before_bootstrap
    (Bootstrap : Entry → Context → appContext → appContext) (raw : Raw) (p : Package)
    (hB : ∀ v w, KeepsEntry v (Bootstrap w Context.Background)) :
    ((∀ f ∈ p.pluginRegFuncList, InsertsWhatItReturns raw f) →
      RegisteredBeforeBootstrap raw p.pluginRegFuncList
        (BootstrapPluginEntryFromYAML Bootstrap raw p).1.GlobalAppCtx
        (BootstrapPluginEntryFromYAML Bootstrap raw p).2) ∧
    ((∀ f ∈ p.builtinRegFuncList, InsertsWhatItReturns raw f) →
      RegisteredBeforeBootstrap raw p.builtinRegFuncList
        (BootstrapBuiltInEntryFromYAML Bootstrap raw p).1.GlobalAppCtx
        (BootstrapBuiltInEntryFromYAML Bootstrap raw p).2) ∧
    ((∀ f ∈ p.webFrameRegFuncList, InsertsWhatItReturns raw f) →
      RegisteredBeforeBootstrap raw p.webFrameRegFuncList
        (BootstrapWebFrameEntryFromYAML Bootstrap raw p).1.GlobalAppCtx
        (BootstrapWebFrameEntryFromYAML Bootstrap raw p).2) ∧
    ((∀ f ∈ p.userDefRegFuncList, InsertsWhatItReturns raw f) →
      RegisteredBeforeBootstrap raw p.userDefRegFuncList
        (BootstrapUserEntryFromYAML Bootstrap raw p).1.GlobalAppCtx
        (BootstrapUserEntryFromYAML Bootstrap raw p).2) :=
  ⟨fun h => bootstrapRegFuncs_registered Bootstrap raw _ hB _ h _,
   fun h => bootstrapRegFuncs_registered Bootstrap raw _ hB _ h _,
   fun h => bootstrapRegFuncs_registered Bootstrap raw _ hB _ h _,
   fun h => bootstrapRegFuncs_registered Bootstrap raw _ hB _ h _⟩

theorem insertingRegFunc_inserts (raw : Raw) : InsertsWhatItReturns raw insertingRegFunc := by
  intro g v hv
  simp only [insertingRegFunc, GoMap.values, List.map_cons, List.map_nil,
    List.mem_singleton] at hv
  subst hv
  exact GetEntry_AddEntry_self g (EntryMock 10 "a")

theorem insertingRegFunc_keeps (raw : Raw) :
    KeepsEntry (EntryMock 10 "a") (fun g2 => (insertingRegFunc.call raw g2).2) :=
  fun g _ => GetEntry_AddEntry_self g (EntryMock 10 "a")

/-- Witness of C3 as amended: a plugin list holding one function that inserts
the entry "a" with AddEntry and returns it; the entry is in the registry when
Bootstrap is called on it and after the pass. -/
theorem bootstrap_registered_before_bootstrap_witness :
    GetEntry (AddEntry emptyCtx (some (EntryMock 10 "a"))) "mock" "a"
      = some (EntryMock 10 "a") ∧
    GetEntry (BootstrapPluginEntryFromYAML noopBootstrap []
        (pluginPackage [insertingRegFunc])).1.GlobalAppCtx "mock" "a"
      = some (EntryMock 10 "a") :=
  have h := (bootstrap_registered_before_bootstrap noopBootstrap []
    (pluginPackage [insertingRegFunc]) (fun _ _ _ hg => hg)).1
    (fun f hf => by
      have hf2 : f = insertingRegFunc := List.mem_singleton.mp hf
      subst hf2
      exact insertingRegFunc_inserts [])
  ⟨h.1 (EntryMock 10 "a") Context.Background (AddEntry emptyCtx (some (EntryMock 10 "a")))
      (by decide),
   h.2 0 [] emptyCtx [("a", EntryMock 10 "a")] (by decide) (EntryMock 10 "a") (by decide)
      (fun f hf => by
        have hf2 : f = insertingRegFunc := List.mem_singleton.mp hf
        subst hf2
        exact insertingRegFunc_keeps [])⟩

/-! ## GetCryptoEntry -/

/-- C11: for every registry state and every name, GetCryptoEntry(name) returns
the entry stored at the crypto type and the name when that entry implements
Crypto, and nil when the type is missing, the name is missing or the stored
entry does not implement Crypto; it never panics. -/
theorem GetCryptoEntry_narrows (CryptoEntryType : String) (implementsCrypto : GoType → Bool)
    (ctx : appContext) (name : String) :
    (∀ m v, ctx.entries.get? CryptoEntryType = some m → m.get? name = some v →
      implementsCrypto v.dynType = true →
      GetCryptoEntry CryptoEntryType implementsCrypto ctx name = .ok (some v)) ∧
    (∀ m v, ctx.entries.get? CryptoEntryType = some m → m.get? name = some v →
      implementsCrypto v.dynType = false →
      GetCryptoEntry CryptoEntryType implementsCrypto ctx name = .ok none) ∧
    (∀ m, ctx.entries.get? CryptoEntryType = some m → m.get? name = none →
      GetCryptoEntry CryptoEntryType implementsCrypto ctx name = .ok none) ∧
    (ctx.entries.get? CryptoEntryType = none →
      GetCryptoEntry CryptoEntryType implementsCrypto ctx name = .ok none) ∧
    (∃ r, GetCryptoEntry CryptoEntryType implementsCrypto ctx name = .ok r) := by
  refine ⟨?_, ?_, ?_, ?_, ?_⟩
  · intro m v hm hv hc
    simp [GetCryptoEntry, GetEntry, hm, hv, assertCrypto, hc]
  · intro m v hm hv hc
    simp [GetCryptoEntry, GetEntry, hm, hv, assertCrypto, hc]
  · intro m hm hv
    simp [GetCryptoEntry, GetEntry, hm, hv]
  · intro hm
    simp [GetCryptoEntry, GetEntry, hm]
  · cases hg : GetEntry ctx CryptoEntryType name with
    | none => exact ⟨none, by simp [GetCryptoEntry, hg]⟩
    | some v =>
      cases hc : implementsCrypto v.dynType with
      | true => exact ⟨some v, by simp [GetCryptoEntry, hg, assertCrypto, hc]⟩
      | false => exact ⟨none, by simp [GetCryptoEntry, hg, assertCrypto, hc]⟩

/-- Witness of C11: under the crypto type, "c" implements Crypto and is
returned, "m" does not and gives nil, "x" is missing and gives nil. -/
theorem GetCryptoEntry_narrows_witness :
    GetCryptoEntry "CryptoEntry" onlyCryptoMock cryptoCtx "c" = .ok (some (cryptoMock 40 "c")) ∧
    GetCryptoEntry "CryptoEntry" onlyCryptoMock cryptoCtx "m" = .ok none ∧
    GetCryptoEntry "CryptoEntry" onlyCryptoMock cryptoCtx "x" = .ok none ∧
    GetCryptoEntry "CryptoEntry" onlyCryptoMock emptyCtx "c" = .ok none :=
  ⟨(GetCryptoEntry_narrows "CryptoEntry" onlyCryptoMock cryptoCtx "c").1
      [("c", cryptoMock 40 "c"), ("m", foreignEntry 41 "CryptoEntry" "m")] (cryptoMock 40 "c")
      (by decide) (by decide) (by decide),
   (GetCryptoEntry_narrows "CryptoEntry" onlyCryptoMock cryptoCtx "m").2.1
      [("c", cryptoMock 40 "c"), ("m", foreignEntry 41 "CryptoEntry" "m")]
      (foreignEntry 41 "CryptoEntry" "m") (by decide) (by decide) (by decide),
   (GetCryptoEntry_narrows "CryptoEntry" onlyCryptoMock cryptoCtx "x").2.2.1
      [("c", cryptoMock 40 "c"), ("m", foreignEntry 41 "CryptoEntry" "m")]
      (by decide) (by decide),
   (GetCryptoEntry_narrows "CryptoEntry" onlyCryptoMock emptyCtx "c").2.2.2.1 (by decide)⟩

/-! ## Registration of registration functions -/

/-- C12: for every plugin registration function list, RegisterPluginRegFunc(nil)
leaves the list and the rest of the package state unchanged, and
RegisterPluginRegFunc(fn) with a non-nil fn makes the list the old list with fn
appended as last element: the length grows by one and the old elements keep
their places.  The same holds for RegisterWebFrameRegFunc and
RegisterUserEntryRegFunc on their lists. -/
theorem RegisterRegFunc_appends (p : Package) (fn : RegFunc) :
    (RegisterPluginRegFunc p none = p ∧
      (RegisterPluginRegFunc p (some fn)).pluginRegFuncList = p.pluginRegFuncList ++ [fn] ∧
      (RegisterPluginRegFunc p (some fn)).pluginRegFuncList.length
        = p.pluginRegFuncList.length + 1 ∧
      (RegisterPluginRegFunc p (some fn)).pluginRegFuncList.take p.pluginRegFuncList.length
        = p.pluginRegFuncList ∧
      (RegisterPluginRegFunc p (some fn)).pluginRegFuncList.getLast? = some fn) ∧
    (RegisterWebFrameRegFunc p none = p ∧
      (RegisterWebFrameRegFunc p (some fn)).webFrameRegFuncList = p.webFrameRegFuncList ++ [fn] ∧
      (RegisterWebFrameRegFunc p (some fn)).webFrameRegFuncList.length
        = p.webFrameRegFuncList.length + 1 ∧
      (RegisterWebFrameRegFunc p (some fn)).webFrameRegFuncList.take p.webFrameRegFuncList.length
        = p.webFrameRegFuncList ∧
      (RegisterWebFrameRegFunc p (some fn)).webFrameRegFuncList.getLast? = some fn) ∧
    (RegisterUserEntryRegFunc p none = p ∧
      (RegisterUserEntryRegFunc p (some fn)).userDefRegFuncList = p.userDefRegFuncList ++ [fn] ∧
      (RegisterUserEntryRegFunc p (some fn)).userDefRegFuncList.length
        = p.userDefRegFuncList.length + 1 ∧
      (RegisterUserEntryRegFunc p (some fn)).userDefRegFuncList.take p.userDefRegFuncList.length
        = p.userDefRegFuncList ∧
      (RegisterUserEntryRegFunc p (some fn)).userDefRegFuncList.getLast? = some fn) := by
  refine ⟨⟨rfl, rfl, ?_, ?_, ?_⟩, ⟨rfl, rfl, ?_, ?_, ?_⟩, ⟨rfl, rfl, ?_, ?_, ?_⟩⟩ <;>
    simp [RegisterPluginRegFunc, RegisterWebFrameRegFunc, RegisterUserEntryRegFunc]

/-! ## Shutdown hooks -/

/-- C14: for every hook table of the global context and every name,
RemoveShutdownHook(name) returns true exactly when a hook was stored under the
name; afterwards no hook is stored under the name and the hooks under every
other name are as before.  AddShutdownHook(name, fn) with non-nil fn followed
by RemoveShutdownHook(name) returns true, and removing a name that is not
present returns false and leaves the package state unchanged. -/
theorem RemoveShutdownHook_global (p : Package) (name : String) :
    ((RemoveShutdownHook p name).2 = true ↔
      ∃ f, GetShutdownHook p.GlobalAppCtx name = some f) ∧
    GetShutdownHook (RemoveShutdownHook p name).1.GlobalAppCtx name = none ∧
    (∀ other, other ≠ name →
      GetShutdownHook (RemoveShutdownHook p name).1.GlobalAppCtx other
        = GetShutdownHook p.GlobalAppCtx other) ∧
    (∀ fn, (RemoveShutdownHook
        { p with GlobalAppCtx := AddShutdownHook p.GlobalAppCtx name (some fn) } name).2 = true) ∧
    (GetShutdownHook p.GlobalAppCtx name = none → RemoveShutdownHook p name = (p, false)) := by
  refine ⟨?_, ?_, ?_, ?_, ?_⟩
  · cases h : p.GlobalAppCtx.shutdownHooks.get? name <;>
      simp [RemoveShutdownHook, GetShutdownHook, h]
  · cases h : p.GlobalAppCtx.shutdownHooks.get? name <;>
      simp [RemoveShutdownHook, GetShutdownHook, h, GoMap.get?_delete_self]
  · intro other hne
    have hne2 : name ≠ other := fun h => hne h.symm
    cases h : p.GlobalAppCtx.shutdownHooks.get? name <;>
      simp [RemoveShutdownHook, GetShutdownHook, h, GoMap.get?_delete_ne _ hne2]
  · intro fn
    simp [RemoveShutdownHook, AddShutdownHook, GoMap.get?_set_self]
  · intro h
    simp only [GetShutdownHook] at h
    simp [RemoveShutdownHook, h]

/-- Witness of C14: the global context holds the hooks "h1" and "h2";
removing "h1" returns true and keeps "h2", removing "non-exist" returns false
and changes nothing. -/
theorem RemoveShutdownHook_global_witness :
    (RemoveShutdownHook hookPackage "h1").2 = true ∧
    GetShutdownHook (RemoveShutdownHook hookPackage "h1").1.GlobalAppCtx "h2" = some 51 ∧
    RemoveShutdownHook hookPackage "non-exist" = (hookPackage, false) :=
  ⟨(RemoveShutdownHook_global hookPackage "h1").1.mpr ⟨50, by decide⟩,
   ((RemoveShutdownHook_global hookPackage "h1").2.2.1 "h2" (by decide)).trans (by decide),
   (RemoveShutdownHook_global hookPackage "non-exist").2.2.2.2 (by decide)⟩

/-- C15: for every hook table and every name, the empty name included,
AddShutdownHook(name, nil) leaves the context unchanged, so the hook count and
GetShutdownHook(name) are as before; AddShutdownHook(name, fn) with non-nil fn
makes GetShutdownHook(name) return fn, also when a hook was stored under the
name before (the last write wins), and leaves the hooks under every other name
unchanged. -/
theorem AddShutdownHook_stores (ctx : appContext) (name : String) (fn fn2 : Nat) :
    (AddShutdownHook ctx name none = ctx ∧
      (ListShutdownHooks (AddShutdownHook ctx name none)).len = (ListShutdownHooks ctx).len ∧
      GetShutdownHook (AddShutdownHook ctx name none) name = GetShutdownHook ctx name) ∧
    GetShutdownHook (AddShutdownHook ctx name (some fn)) name = some fn ∧
    GetShutdownHook (AddShutdownHook (AddShutdownHook ctx name (some fn)) name (some fn2)) name
      = some fn2 ∧
    (∀ other, other ≠ name →
      GetShutdownHook (AddShutdownHook ctx name (some fn)) other
        = GetShutdownHook ctx other) := by
  refine ⟨⟨rfl, rfl, rfl⟩, ?_, ?_, ?_⟩
  · simp [AddShutdownHook, GetShutdownHook, GoMap.get?_set_self]
  · simp [AddShutdownHook, GetShutdownHook, GoMap.get?_set_self]
  · intro other hne
    have hne2 : name ≠ other := fun h => hne h.symm
    simp [AddShutdownHook, GetShutdownHook, GoMap.get?_set_ne _ _ hne2]

/-- Witness of C15: a hook stored under the empty name next to the hook "h1",
which stays. -/
theorem AddShutdownHook_stores_witness :
    GetShutdownHook (AddShutdownHook hookPackage.GlobalAppCtx "" (some 52)) "" = some 52 ∧
    GetShutdownHook (AddShutdownHook hookPackage.GlobalAppCtx "" (some 52)) "h1" = some 50 :=
  ⟨(AddShutdownHook_stores hookPackage.GlobalAppCtx "" 52 53).2.1,
   ((AddShutdownHook_stores hookPackage.GlobalAppCtx "" 52 53).2.2.2 "h1" (by decide)).trans
     (by decide)⟩

/-! ## Embedded file systems -/

theorem strLen_lt_one_iff (s : String) : strLen s < 1 ↔ s = "" := by
  obtain ⟨l⟩ := s
  cases l with
  | nil => simp [strLen, String.utf8ByteSize, String.utf8ByteSize.go]
  | cons c cs =>
    have hc : 0 < c.utf8Size := Char.utf8Size_pos c
    have hne : (String.mk (c :: cs)) ≠ "" := by
      intro h
      have := congrArg String.data h
      simp at this
    simp only [strLen, String.utf8ByteSize, String.utf8ByteSize.go, hne, iff_false]
    omega

/-- C16: for every embedded resource store, AddEmbedFS(type, name, handle)
leaves the context unchanged when the type is empty, the name is empty or the
handle is nil; with a non-empty type, a non-empty name and a non-nil handle, a
following GetEmbedFS(type, name) returns the handle; and GetEmbedFS(type, name)
is nil when the type or the name under the type is missing. -/
theorem EmbedFS_guarded_store (ctx : appContext) (entryType entryName : String) (fs : Nat) :
    (entryType = "" → AddEmbedFS ctx entryType entryName (some fs) = ctx) ∧
    (entryName = "" → AddEmbedFS ctx entryType entryName (some fs) = ctx) ∧
    AddEmbedFS ctx entryType entryName none = ctx ∧
    (entryType ≠ "" → entryName ≠ "" →
      GetEmbedFS (AddEmbedFS ctx entryType entryName (some fs)) entryType entryName
        = some fs) ∧
    (ctx.embedFS.get? entryType = none → GetEmbedFS ctx entryType entryName = none) ∧
    (∀ v, ctx.embedFS.get? entryType = some v → v.get? entryName = none →
      GetEmbedFS ctx entryType entryName = none) := by
  refine ⟨?_, ?_, rfl, ?_, ?_, ?_⟩
  · intro h
    simp [AddEmbedFS, (strLen_lt_one_iff entryType).mpr h]
  · intro h
    simp [AddEmbedFS, (strLen_lt_one_iff entryName).mpr h]
  · intro ht hn
    have h1 : ¬ strLen entryType < 1 := fun h => ht ((strLen_lt_one_iff _).mp h)
    have h2 : ¬ strLen entryName < 1 := fun h => hn ((strLen_lt_one_iff _).mp h)
    simp [AddEmbedFS, GetEmbedFS, h1, h2, GoMap.get?_set_self]
  · intro h
    simp [GetEmbedFS, h]
  · intro v h hv
    simp [GetEmbedFS, h, hv]

/-- Witness of C16: on the empty store, an empty type is refused, and the
handle 60 stored at "type" and "name" is read back. -/
theorem EmbedFS_guarded_store_witness :
    AddEmbedFS emptyCtx "" "name" (some 60) = emptyCtx ∧
    GetEmbedFS (AddEmbedFS emptyCtx "type" "name" (some 60)) "type" "name" = some 60 ∧
    GetEmbedFS emptyCtx "type" "name" = none :=
  ⟨(EmbedFS_guarded_store emptyCtx "" "name" 60).1 rfl,
   (EmbedFS_guarded_store emptyCtx "type" "name" 60).2.2.2.1 (by decide) (by decide),
   (EmbedFS_guarded_store emptyCtx "type" "name" 60).2.2.2.2.1 (by decide)⟩

/-! ## User values -/

theorem rangeDelete_eq_filter {V : Type} (ks : List String) (m : GoMap V) :
    rangeDelete ks m = m.filter (fun p => decide (p.1 ∉ ks)) := by
  induction ks generalizing m with
  | nil => simp [rangeDelete]
  | cons k ks ih =>
    simp only [rangeDelete, ih, GoMap.delete, List.filter_filter]
    apply List.filter_congr
    intro p _
    simp [List.mem_cons, not_or, Bool.and_comm]

theorem rangeDelete_keys {V : Type} (m : GoMap V) :
    rangeDelete (m.map Prod.fst) m = [] := by
  rw [rangeDelete_eq_filter, List.filter_eq_nil_iff]
  intro p hp
  simp only [decide_not, Bool.not_eq_true', decide_eq_false_iff_not, not_not]
  exact List.mem_map_of_mem Prod.fst hp

/-- C17: for every user value store, every key and every value, the empty
string included, AddValue(k, v) stores v under k and GetValue(k) then returns
v; a later AddValue(k, v2) makes GetValue(k) return v2; and the values under
every other key are unchanged. -/
theorem AddValue_GetValue (ctx : appContext) (k : String) (v v2 : Value) :
    (AddValue ctx k v).userValues.get? k = some v ∧
    GetValue (AddValue ctx k v) k = v ∧
    GetValue (AddValue (AddValue ctx k v) k v2) k = v2 ∧
    (∀ k2, k2 ≠ k →
      (AddValue ctx k v).userValues.get? k2 = ctx.userValues.get? k2 ∧
      GetValue (AddValue ctx k v) k2 = GetValue ctx k2) := by
  refine ⟨?_, ?_, ?_, ?_⟩
  · simp [AddValue, GoMap.get?_set_self]
  · simp [AddValue, GetValue, GoMap.get?_set_self]
  · simp [AddValue, GetValue, GoMap.get?_set_self]
  · intro k2 hne
    have hne2 : k ≠ k2 := fun h => hne h.symm
    simp [AddValue, GetValue, GoMap.get?_set_ne _ _ hne2]

/-- Witness of C17: the empty key and the empty string value are stored and
read back, and the value under "k1" stays. -/
theorem AddValue_GetValue_witness :
    GetValue (AddValue valueCtx "" (Value.str "")) "" = Value.str "" ∧
    GetValue (AddValue valueCtx "" (Value.str "")) "k1" = Value.str "v1" :=
  ⟨(AddValue_GetValue valueCtx "" (Value.str "") Value.nil).2.1,
   ((AddValue_GetValue valueCtx "" (Value.str "") Value.nil).2.2.2 "k1" (by decide)).2.trans
     (by decide)⟩

/-- C18: for every user value store, after ClearValues() the map returned by
ListValues() is empty and GetValue(k) returns nil for every key k. -/
theorem ClearValues_empties (ctx : appContext) :
    ListValues (ClearValues ctx) = [] ∧
    (ListValues (ClearValues ctx)).len = 0 ∧
    (∀ k, GetValue (ClearValues ctx) k = Value.nil) := by
  have h : (ClearValues ctx).userValues = [] := by
    simp [ClearValues, rangeDelete_keys]
  refine ⟨h, ?_, ?_⟩
  · simp [ListValues, h, GoMap.len]
  · intro k
    simp [GetValue, h, GoMap.get?]

/-- C19: for every user value store and every key k, RemoveValue(k) removes k
and nothing else: afterwards k is missing and GetValue(k) returns nil, every
other key keeps its value, and when k is not in the store the context, and so
the number of stored values, is unchanged. -/
theorem RemoveValue_removes_exactly (ctx : appContext) (k : String) :
    (RemoveValue ctx k).userValues.get? k = none ∧
    GetValue (RemoveValue ctx k) k = Value.nil ∧
    (∀ k2, k2 ≠ k →
      (RemoveValue ctx k).userValues.get? k2 = ctx.userValues.get? k2 ∧
      GetValue (RemoveValue ctx k) k2 = GetValue ctx k2) ∧
    (ctx.userValues.get? k = none →
      RemoveValue ctx k = ctx ∧
      (ListValues (RemoveValue ctx k)).len = (ListValues ctx).len) := by
  refine ⟨?_, ?_, ?_, ?_⟩
  · simp [RemoveValue, GoMap.get?_delete_self]
  · simp [RemoveValue, GetValue, GoMap.get?_delete_self]
  · intro k2 hne
    have hne2 : k ≠ k2 := fun h => hne h.symm
    simp [RemoveValue, GetValue, GoMap.get?_delete_ne _ hne2]
  · intro h
    have h2 : RemoveValue ctx k = ctx := by
      simp [RemoveValue, GoMap.delete_of_get?_none _ _ h]
    exact ⟨h2, by rw [h2]⟩

/-- Witness of C19: removing "k1" keeps the value under the empty key, and
removing "non-exist-value" changes nothing. -/
theorem RemoveValue_removes_exactly_witness :
    GetValue (RemoveValue valueCtx "k1") "" = Value.int 7 ∧
    RemoveValue valueCtx "non-exist-value" = valueCtx :=
  ⟨((RemoveValue_removes_exactly valueCtx "k1").2.2.1 "" (by decide)).2.trans (by decide),
   ((RemoveValue_removes_exactly valueCtx "non-exist-value").2.2.2 (by decide)).1⟩

/-! ## The registration function lists as slices -/

theorem getD_set_ne {α : Type} (l : List α) (a b : Nat) (v d : α) (h : a ≠ b) :
    (l.set a v).getD b d = l.getD b d := by
  simp [List.getD_eq_getElem?_getD, List.getElem?_set_ne h]

theorem getD_set_self {α : Type} (l : List α) (a : Nat) (v d : α) (h : a < l.length) :
    (l.set a v).getD a d = v := by
  simp [List.getD_eq_getElem?_getD, List.getElem?_set_self, h]

theorem getD_append_left {α : Type} (l r : List α) (a : Nat) (d : α) (h : a < l.length) :
    (l ++ r).getD a d = l.getD a d := by
  simp [List.getD_eq_getElem?_getD, List.getElem?_append_left h]

theorem getD_append_length {α : Type} (l : List α) (v d : α) :
    (l ++ [v]).getD l.length d = v := by
  simp [List.getD_eq_getElem?_getD]

theorem Apart_sliceAppend (growCap : Nat → Nat) (mem0 : Arrays) (st : Arrays × Slice)
    (x : Option RegFunc) (h : Apart mem0 st) :
    Apart mem0 (sliceAppend growCap st.1 st.2 x) := by
  obtain ⟨h1, h2, h3⟩ := h
  unfold sliceAppend
  split
  · refine ⟨h1, by simpa using h2, ?_⟩
    intro a ha
    have hne : st.2.array ≠ a := by omega
    simp only [getD_set_ne _ _ _ _ _ hne]
    exact h3 a ha
  · refine ⟨h2, by simp; omega, ?_⟩
    intro a ha
    simp only [getD_append_left _ _ _ _ (lt_of_lt_of_le ha h2)]
    exact h3 a ha

theorem Apart_apply (growCap : Nat → Nat) (mem0 : Arrays) (op : SliceOp)
    (st st2 : Arrays × Slice) (h : Apart mem0 st) (hop : op.apply growCap st = .ok st2) :
    Apart mem0 st2 := by
  cases op with
  | setIndex i x =>
    simp only [SliceOp.apply] at hop
    split at hop
    · injection hop with hop
      subst hop
      obtain ⟨h1, h2, h3⟩ := h
      refine ⟨h1, by simpa using h2, ?_⟩
      intro a ha
      have hne : st.2.array ≠ a := by omega
      simp only [getD_set_ne _ _ _ _ _ hne]
      exact h3 a ha
    · cases hop
  | append x =>
    simp only [SliceOp.apply] at hop
    injection hop with hop
    subst hop
    exact Apart_sliceAppend growCap mem0 st x h
  | reslice n =>
    simp only [SliceOp.apply] at hop
    split at hop
    · injection hop with hop
      subst hop
      exact h
    · cases hop

theorem Apart_runOps (growCap : Nat → Nat) (mem0 : Arrays) (ops : List SliceOp)
    (st : Arrays × Slice) (h : Apart mem0 st) : Apart mem0 (runOps growCap ops st).1 := by
  induction ops generalizing st with
  | nil => exact h
  | cons op ops ih =>
    simp only [runOps]
    cases hop : op.apply growCap st with
    | ok st2 => exact ih st2 (Apart_apply growCap mem0 op st st2 h hop)
    | error e => exact h

theorem view_of_Apart (mem0 : Arrays) (st : Arrays × Slice) (h : Apart mem0 st)
    (list : Slice) (hl : list.array < mem0.length) : list.view st.1 = list.view mem0 := by
  simp only [Slice.view, h.2.2 list.array hl]

theorem take_succ_set {α : Type} (l : List α) (i : Nat) (x : α) (h : i < l.length) :
    (l.set i x).take (i + 1) = l.take i ++ [x] := by
  induction l generalizing i with
  | nil => simp at h
  | cons a l ih =>
    cases i with
    | zero => simp
    | succ i =>
      simp only [List.length_cons, Nat.add_lt_add_iff_right] at h
      simp [List.set, List.take, ih i h]

theorem sliceAppend_view (growCap : Nat → Nat) (mem : Arrays) (s : Slice) (x : Option RegFunc)
    (h : s.Valid mem) :
    (sliceAppend growCap mem s x).2.Valid (sliceAppend growCap mem s x).1 ∧
    (sliceAppend growCap mem s x).2.view (sliceAppend growCap mem s x).1 = s.view mem ++ [x] ∧
    (sliceAppend growCap mem s x).2.len = s.len + 1 := by
  obtain ⟨h1, h2, h3⟩ := h
  unfold sliceAppend
  split
  · rename_i hlt
    have hlen : s.len < (mem.getD s.array []).length := by omega
    refine ⟨⟨by simpa using h1, by simp only; omega, ?_⟩, ?_, rfl⟩
    · simp only [getD_set_self _ _ _ _ h1, List.length_set]
      exact h3
    · simp only [Slice.view, getD_set_self _ _ _ _ h1]
      exact take_succ_set _ _ _ hlen
  · rename_i hlt
    have hvl : (s.view mem).length = s.len := by
      simp only [Slice.view, List.length_take]
      omega
    refine ⟨⟨by simp, by simp only; omega, ?_⟩, ?_, rfl⟩
    · simp only [getD_append_length, List.length_append, hvl, List.length_singleton,
        List.length_replicate]
      omega
    · simp only [Slice.view, getD_append_length]
      have hvl2 : (List.take s.len (mem.getD s.array []) ++ [x]).length = s.len + 1 := by
        simp only [List.length_append, List.length_singleton]
        simp only [Slice.view] at hvl
        omega
      exact List.take_left' hvl2

theorem copyLoop_view (growCap : Nat → Nat) (mem0 : Arrays) (list : Slice)
    (hl : list.array < mem0.length) (n i : Nat) (st : Arrays × Slice)
    (hA : Apart mem0 st) (hV : st.2.Valid st.1)
    (hb : i + n ≤ (mem0.getD list.array []).length) :
    Apart mem0 (copyLoop growCap list n i st) ∧
    (copyLoop growCap list n i st).2.Valid (copyLoop growCap list n i st).1 ∧
    (copyLoop growCap list n i st).2.view (copyLoop growCap list n i st).1
      = st.2.view st.1 ++ ((mem0.getD list.array []).drop i).take n ∧
    (copyLoop growCap list n i st).2.len = st.2.len + n := by
  induction n generalizing i st with
  | zero => exact ⟨hA, hV, by simp [copyLoop], rfl⟩
  | succ n ih =>
    have hi : i < (mem0.getD list.array []).length := by omega
    have hread : (st.1.getD list.array []).getD i none = (mem0.getD list.array [])[i] := by
      rw [hA.2.2 list.array hl, List.getD_eq_getElem _ _ hi]
    obtain ⟨hV2, hview2, hlen2⟩ :=
      sliceAppend_view growCap st.1 st.2 ((st.1.getD list.array []).getD i none) hV
    have hA2 := Apart_sliceAppend growCap mem0 st ((st.1.getD list.array []).getD i none) hA
    obtain ⟨r1, r2, r3, r4⟩ := ih (i + 1) _ hA2 hV2 (by omega)
    simp only [copyLoop]
    refine ⟨r1, r2, ?_, ?_⟩
    · rw [r3, hview2, hread, List.drop_eq_getElem_cons hi, List.take_succ_cons,
        List.append_assoc, List.singleton_append]
    · rw [r4, hlen2]
      omega

theorem copyRegFuncList_copy (growCap : Nat → Nat) (mem : Arrays) (list : Slice)
    (h : list.Valid mem) :
    Apart mem (copyRegFuncList growCap mem list) ∧
    (copyRegFuncList growCap mem list).2.view (copyRegFuncList growCap mem list).1
      = list.view mem ∧
    (copyRegFuncList growCap mem list).2.len = list.len := by
  have hA : Apart mem (makeSlice mem) := by
    refine ⟨le_refl _, by simp [makeSlice], ?_⟩
    intro a ha
    simp only [makeSlice, getD_append_left _ _ _ _ ha]
  have hV : (makeSlice mem).2.Valid (makeSlice mem).1 := by
    refine ⟨by simp [makeSlice], le_refl _, by simp [makeSlice]⟩
  have hb : 0 + list.len ≤ (mem.getD list.array []).length := by
    have := h.2.1
    have := h.2.2
    omega
  obtain ⟨r1, _, r3, r4⟩ := copyLoop_view growCap mem list h.1 list.len 0 (makeSlice mem) hA hV hb
  refine ⟨r1, ?_, ?_⟩
  · simp only [copyRegFuncList, r3]
    simp [Slice.view, makeSlice]
  · simp only [copyRegFuncList, r4]
    simp [makeSlice]

theorem copyRegFuncList_independent (growCap : Nat → Nat) (mem : Arrays) (list : Slice)
    (h : list.Valid mem) :
    (copyRegFuncList growCap mem list).2.view (copyRegFuncList growCap mem list).1
      = list.view mem ∧
    (copyRegFuncList growCap mem list).2.len = list.len ∧
    (∀ other : Slice, other.array < mem.length →
      other.view (copyRegFuncList growCap mem list).1 = other.view mem) ∧
    (∀ (ops : List SliceOp) (other : Slice), other.array < mem.length →
      other.view (runOps growCap ops (copyRegFuncList growCap mem list)).1.1
        = other.view mem) := by
  obtain ⟨hA, hv, hlen⟩ := copyRegFuncList_copy growCap mem list h
  refine ⟨hv, hlen, ?_, ?_⟩
  · intro other ho
    exact view_of_Apart mem _ hA other ho
  · intro ops other ho
    exact view_of_Apart mem _ (Apart_runOps growCap mem ops _ hA) other ho

/-- C13: for every plugin registration function list, ListPluginEntryRegFunc()
returns a slice with the same length and the same functions in the same order
as the list, and it is a copy: the call leaves the variable and the elements of
the list (and of every slice that existed before the call) unchanged, and so
does every later sequence of assignments to elements of, appends to and cuts of
the returned slice.  The same holds for ListWebFrameEntryRegFunc and
ListUserEntryRegFunc. -/
theorem ListEntryRegFunc_returns_copy (growCap : Nat → Nat) (g : RegFuncSlices) :
    (g.pluginRegFuncList.Valid g.arrays →
      (ListPluginEntryRegFunc growCap g).2.view (ListPluginEntryRegFunc growCap g).1.arrays
        = g.pluginRegFuncList.view g.arrays ∧
      (ListPluginEntryRegFunc growCap g).2.len = g.pluginRegFuncList.len ∧
      (ListPluginEntryRegFunc growCap g).1.pluginRegFuncList = g.pluginRegFuncList ∧
      (∀ other : Slice, other.array < g.arrays.length →
        other.view (ListPluginEntryRegFunc growCap g).1.arrays = other.view g.arrays) ∧
      (∀ (ops : List SliceOp) (other : Slice), other.array < g.arrays.length →
        other.view (runOps growCap ops ((ListPluginEntryRegFunc growCap g).1.arrays,
          (ListPluginEntryRegFunc growCap g).2)).1.1 = other.view g.arrays)) ∧
    (g.webFrameRegFuncList.Valid g.arrays →
      (ListWebFrameEntryRegFunc growCap g).2.view (ListWebFrameEntryRegFunc growCap g).1.arrays
        = g.webFrameRegFuncList.view g.arrays ∧
      (ListWebFrameEntryRegFunc growCap g).2.len = g.webFrameRegFuncList.len ∧
      (ListWebFrameEntryRegFunc growCap g).1.webFrameRegFuncList = g.webFrameRegFuncList ∧
      (∀ other : Slice, other.array < g.arrays.length →
        other.view (ListWebFrameEntryRegFunc growCap g).1.arrays = other.view g.arrays) ∧
      (∀ (ops : List SliceOp) (other : Slice), other.array < g.arrays.length →
        other.view (runOps growCap ops ((ListWebFrameEntryRegFunc growCap g).1.arrays,
          (ListWebFrameEntryRegFunc growCap g).2)).1.1 = other.view g.arrays)) ∧
    (g.userDefRegFuncList.Valid g.arrays →
      (ListUserEntryRegFunc growCap g).2.view (ListUserEntryRegFunc growCap g).1.arrays
        = g.userDefRegFuncList.view g.arrays ∧
      (ListUserEntryRegFunc growCap g).2.len = g.userDefRegFuncList.len ∧
      (ListUserEntryRegFunc growCap g).1.userDefRegFuncList = g.userDefRegFuncList ∧
      (∀ other : Slice, other.array < g.arrays.length →
        other.view (ListUserEntryRegFunc growCap g).1.arrays = other.view g.arrays) ∧
      (∀ (ops : List SliceOp) (other : Slice), other.array < g.arrays.length →
        other.view (runOps growCap ops ((ListUserEntryRegFunc growCap g).1.arrays,
          (ListUserEntryRegFunc growCap g).2)).1.1 = other.view g.arrays)) := by
  refine ⟨fun h => ?_, fun h => ?_, fun h => ?_⟩
  · obtain ⟨r1, r2, r3, r4⟩ := copyRegFuncList_independent growCap g.arrays _ h
    exact ⟨r1, r2, rfl, r3, r4⟩
  · obtain ⟨r1, r2, r3, r4⟩ := copyRegFuncList_independent growCap g.arrays _ h
    exact ⟨r1, r2, rfl, r3, r4⟩
  · obtain ⟨r1, r2, r3, r4⟩ := copyRegFuncList_independent growCap g.arrays _ h
    exact ⟨r1, r2, rfl, r3, r4⟩

/-- Witness of C13: the plugin list holds two functions in an array of three
slots; the returned slice has the two functions, and overwriting, cutting and
growing it leaves the plugin list as it was. -/
theorem ListEntryRegFunc_returns_copy_witness :
    twoPlugins.pluginRegFuncList.Valid twoPlugins.arrays ∧
    (ListPluginEntryRegFunc doubleCap twoPlugins).2.view
        (ListPluginEntryRegFunc doubleCap twoPlugins).1.arrays
      = [some buildOnlyRegFunc, some insertingRegFunc] ∧
    twoPlugins.pluginRegFuncList.view
        (runOps doubleCap [SliceOp.setIndex 0 none, SliceOp.reslice 1, SliceOp.append none]
          ((ListPluginEntryRegFunc doubleCap twoPlugins).1.arrays,
           (ListPluginEntryRegFunc doubleCap twoPlugins).2)).1.1
      = [some buildOnlyRegFunc, some insertingRegFunc] :=
  have hv : twoPlugins.pluginRegFuncList.Valid twoPlugins.arrays :=
    ⟨by decide, by decide, by decide⟩
  have h := (ListEntryRegFunc_returns_copy doubleCap twoPlugins).1 hv
  ⟨hv, h.1.trans rfl,
   (h.2.2.2.2 [SliceOp.setIndex 0 none, SliceOp.reslice 1, SliceOp.append none]
      twoPlugins.pluginRegFuncList (by decide)).trans rfl⟩

/-! ## The initial global context -/

/-- C20, the claim as stated fails: the registry GlobalAppCtx is initialised
with holds the default application info entry, so ListEntriesByType at the
application info type returns a map of length 1, not 0. -/
theorem GlobalAppCtx_initial_holds_appInfoEntry :
    ListEntriesByType
        (GlobalAppCtx 0 "AppInfoEntry" "AppInfoDefault" (appInfoEntryAt 1) (appInfoEntryAt 2) 3)
        "AppInfoEntry"
      = some [("AppInfoDefault", appInfoEntryAt 1)] ∧
    (ListEntriesByType
        (GlobalAppCtx 0 "AppInfoEntry" "AppInfoDefault" (appInfoEntryAt 1) (appInfoEntryAt 2) 3)
        "AppInfoEntry").map GoMap.len = some 1 ∧
    (ListEntriesByType
        (GlobalAppCtx 0 "AppInfoEntry" "AppInfoDefault" (appInfoEntryAt 1) (appInfoEntryAt 2) 3)
        "AppInfoEntry").map GoMap.len ≠ some 0 := by
  decide

/-- C20, amended: in the global context as initialised, ListEntriesByType at
the application info type has length 1, holding the default application info
entry under appInfoEntryName; ListEntriesByType at every other type has length
0, the shutdown hook table is empty and the user value store is empty; and the
length at the application info type is 0 once clearEntries has run. -/
theorem GlobalAppCtx_initial (now : Nat) (appInfoEntryType appInfoEntryName : String)
    (appInfoEntryDefault1 appInfoEntryDefault2 : Entry) (shutdownSig : Nat) :
    ListEntriesByType (GlobalAppCtx now appInfoEntryType appInfoEntryName appInfoEntryDefault1
        appInfoEntryDefault2 shutdownSig) appInfoEntryType
      = some [(appInfoEntryName, appInfoEntryDefault1)] ∧
    (ListEntriesByType (GlobalAppCtx now appInfoEntryType appInfoEntryName appInfoEntryDefault1
        appInfoEntryDefault2 shutdownSig) appInfoEntryType).map GoMap.len = some 1 ∧
    (∀ t, t ≠ appInfoEntryType →
      ListEntriesByType (GlobalAppCtx now appInfoEntryType appInfoEntryName appInfoEntryDefault1
          appInfoEntryDefault2 shutdownSig) t = some [] ∧
      (ListEntriesByType (GlobalAppCtx now appInfoEntryType appInfoEntryName
          appInfoEntryDefault1 appInfoEntryDefault2 shutdownSig) t).map GoMap.len = some 0) ∧
    (ListShutdownHooks (GlobalAppCtx now appInfoEntryType appInfoEntryName appInfoEntryDefault1
        appInfoEntryDefault2 shutdownSig)).len = 0 ∧
    (ListValues (GlobalAppCtx now appInfoEntryType appInfoEntryName appInfoEntryDefault1
        appInfoEntryDefault2 shutdownSig)).len = 0 ∧
    (ListEntriesByType (clearEntries (GlobalAppCtx now appInfoEntryType appInfoEntryName
        appInfoEntryDefault1 appInfoEntryDefault2 shutdownSig)) appInfoEntryType).map GoMap.len
      = some 0 := by
  refine ⟨?_, ?_, ?_, rfl, rfl, ?_⟩
  · simp [ListEntriesByType, GlobalAppCtx, GoMap.get?]
  · simp [ListEntriesByType, GlobalAppCtx, GoMap.get?, GoMap.len]
  · intro t ht
    have ht2 : ¬ appInfoEntryType = t := fun h => ht h.symm
    simp [ListEntriesByType, GlobalAppCtx, GoMap.get?, ht2, GoMap.len]
  · simp [ListEntriesByType, GlobalAppCtx, clearEntries, GoMap.get?, GoMap.len]

/-- Witness of C20 as amended: in the initial global context the type
"non-exist" lists as an empty map. -/
theorem GlobalAppCtx_initial_witness :
    "non-exist" ≠ "AppInfoEntry" ∧
    ListEntriesByType
        (GlobalAppCtx 0 "AppInfoEntry" "AppInfoDefault" (appInfoEntryAt 1) (appInfoEntryAt 2) 3)
        "non-exist" = some [] :=
  have hne : "non-exist" ≠ "AppInfoEntry" := by decide
  ⟨hne,
   ((GlobalAppCtx_initial 0 "AppInfoEntry" "AppInfoDefault" (appInfoEntryAt 1)
      (appInfoEntryAt 2) 3).2.2.1 "non-exist" hne).1⟩

/-! ## Default entries on a registry with entries of another variant -/

/-- C21: the code evaluated where the claim fails.  Whatever the values of the
type constants and the fallback instances, on a registry whose only entry is a
user defined entry (an EntryMock) with GetType() the logger type, inserted with
AddEntry, GetLoggerEntryDefault() panics in the type assertion instead of
returning an entry; likewise GetEventEntryDefault() with the event type. -/
theorem default_entry_panics_on_other_variant (LoggerEntryType EventEntryType name : String)
    (ptr : Nat) (LoggerEntryStdout EventEntryStdout : Entry) (ctx : appContext) :
    GetLoggerEntryDefault LoggerEntryType LoggerEntryStdout
        (AddEntry (clearEntries ctx) (some (foreignEntry ptr LoggerEntryType name)))
      = .error (Panic.interfaceConversion (GoType.userDefined "EntryMock") GoType.LoggerEntry) ∧
    GetEventEntryDefault EventEntryType EventEntryStdout
        (AddEntry (clearEntries ctx) (some (foreignEntry ptr EventEntryType name)))
      = .error (Panic.interfaceConversion (GoType.userDefined "EntryMock") GoType.EventEntry) := by
  constructor
  · simp [GetLoggerEntryDefault, AddEntry, clearEntries, foreignEntry, Entry.GetType,
      Entry.GetName, GoMap.get?, GoMap.set, GoMap.values, rangeDefault, typeAssert]
  · simp [GetEventEntryDefault, AddEntry, clearEntries, foreignEntry, Entry.GetType,
      Entry.GetName, GoMap.get?, GoMap.set, GoMap.values, rangeDefault, typeAssert]

/-! ## RemoveShutdownHook on a context that is not the global one -/

/-- C22: the code evaluated where the claim fails.  For a context other than
the global one, after ctx.AddShutdownHook(name, fn) the call
ctx.RemoveShutdownHook(name) returns true exactly when the global context holds
a hook under the name, leaves the hook of ctx in place, so that
ctx.GetShutdownHook(name) still returns fn and ctx.ListShutdownHooks() is as
before, and removes the name from the hook table of the global context. -/
theorem RemoveShutdownHook_ignores_receiver (w : TwoContexts) (name : String) (fn : Nat) :
    ((RemoveShutdownHookOn (AddShutdownHookOn w Receiver.other name (some fn))
        Receiver.other name).2 = true ↔
      ∃ f, GetShutdownHookOn w Receiver.GlobalAppCtx name = some f) ∧
    GetShutdownHookOn (RemoveShutdownHookOn (AddShutdownHookOn w Receiver.other name (some fn))
        Receiver.other name).1 Receiver.other name = some fn ∧
    ListShutdownHooksOn (RemoveShutdownHookOn (AddShutdownHookOn w Receiver.other name (some fn))
        Receiver.other name).1 Receiver.other
      = ListShutdownHooksOn (AddShutdownHookOn w Receiver.other name (some fn)) Receiver.other ∧
    GetShutdownHookOn (RemoveShutdownHookOn (AddShutdownHookOn w Receiver.other name (some fn))
        Receiver.other name).1 Receiver.GlobalAppCtx name = none := by
  refine ⟨?_, ?_, ?_, ?_⟩
  · cases h : w.package.GlobalAppCtx.shutdownHooks.get? name <;>
      simp [RemoveShutdownHookOn, AddShutdownHookOn, RemoveShutdownHook, GetShutdownHookOn,
        GetShutdownHook, TwoContexts.deref, h]
  · simp [RemoveShutdownHookOn, AddShutdownHookOn, GetShutdownHookOn, GetShutdownHook,
      TwoContexts.deref, AddShutdownHook, GoMap.get?_set_self]
  · simp [RemoveShutdownHookOn, AddShutdownHookOn, ListShutdownHooksOn, TwoContexts.deref]
  · cases h : w.package.GlobalAppCtx.shutdownHooks.get? name <;>
      simp [RemoveShutdownHookOn, AddShutdownHookOn, RemoveShutdownHook, GetShutdownHookOn,
        GetShutdownHook, TwoContexts.deref, h, GoMap.get?_delete_self]

/-! ## Key consistency of the registry -/

theorem KeyConsistent_iff (ctx : appContext) :
    KeyConsistent ctx ↔
      ∀ t n e, GetEntry ctx t n = some e → e.GetType = t ∧ e.GetName = n := by
  constructor
  · intro h t n e hg
    cases hm : ctx.entries.get? t with
    | none => simp [GetEntry, hm] at hg
    | some m =>
      simp only [GetEntry, hm] at hg
      exact h t m n e hm hg
  · intro h t m n e hm he
    apply h t n e
    simp [GetEntry, hm, he]

theorem GetEntry_RemoveEntryByType (ctx : appContext) (entryType t n : String) :
    GetEntry (RemoveEntryByType ctx entryType) t n
      = if t = entryType then none else GetEntry ctx t n := by
  by_cases h : t = entryType
  · subst h
    simp [GetEntry, RemoveEntryByType, GoMap.get?_delete_self]
  · have h2 : entryType ≠ t := fun h3 => h h3.symm
    simp [GetEntry, RemoveEntryByType, GoMap.get?_delete_ne _ h2, h]

theorem KeyConsistent_AddEntry (ctx : appContext) (entry : Option Entry)
    (h : KeyConsistent ctx) : KeyConsistent (AddEntry ctx entry) := by
  cases entry with
  | none => exact h
  | some e =>
    rw [KeyConsistent_iff] at h ⊢
    intro t n x hx
    by_cases hk : t = e.GetType ∧ n = e.GetName
    · obtain ⟨ht, hn⟩ := hk
      subst ht hn
      rw [GetEntry_AddEntry_self] at hx
      injection hx with hx
      subst hx
      exact ⟨rfl, rfl⟩
    · have hk2 : t ≠ e.GetType ∨ n ≠ e.GetName := by
        by_cases ht : t = e.GetType
        · exact Or.inr (fun hn => hk ⟨ht, hn⟩)
        · exact Or.inl ht
      rw [GetEntry_AddEntry_ne ctx e t n hk2] at hx
      exact h t n x hx

theorem KeyConsistent_RemoveEntry (ctx : appContext) (entry : Option Entry)
    (h : KeyConsistent ctx) : KeyConsistent (RemoveEntry ctx entry) := by
  cases entry with
  | none => exact h
  | some e =>
    rw [KeyConsistent_iff] at h ⊢
    intro t n x hx
    by_cases hk : t = e.GetType ∧ n = e.GetName
    · obtain ⟨ht, hn⟩ := hk
      subst ht hn
      rw [GetEntry_RemoveEntry_self] at hx
      cases hx
    · have hk2 : t ≠ e.GetType ∨ n ≠ e.GetName := by
        by_cases ht : t = e.GetType
        · exact Or.inr (fun hn => hk ⟨ht, hn⟩)
        · exact Or.inl ht
      rw [GetEntry_RemoveEntry_ne ctx e t n hk2] at hx
      exact h t n x hx

theorem KeyConsistent_RemoveEntryByType (ctx : appContext) (entryType : String)
    (h : KeyConsistent ctx) : KeyConsistent (RemoveEntryByType ctx entryType) := by
  rw [KeyConsistent_iff] at h ⊢
  intro t n x hx
  rw [GetEntry_RemoveEntryByType] at hx
  split at hx
  · cases hx
  · exact h t n x hx

theorem KeyConsistent_clearEntries (ctx : appContext) : KeyConsistent (clearEntries ctx) := by
  intro t m n e hm
  simp [clearEntries, GoMap.get?] at hm

theorem KeyConsistent_apply (ctx : appContext) (op : RegistryOp) (h : KeyConsistent ctx) :
    KeyConsistent (op.apply ctx) := by
  cases op with
  | AddEntry entry => exact KeyConsistent_AddEntry ctx entry h
  | RemoveEntry entry => exact KeyConsistent_RemoveEntry ctx entry h
  | RemoveEntryByType entryType => exact KeyConsistent_RemoveEntryByType ctx entryType h
  | clearEntries => exact KeyConsistent_clearEntries ctx

theorem KeyConsistent_applyRegistryOps (ops : List RegistryOp) (ctx : appContext)
    (h : KeyConsistent ctx) : KeyConsistent (applyRegistryOps ctx ops) := by
  induction ops generalizing ctx with
  | nil => exact h
  | cons op ops ih => exact ih _ (KeyConsistent_apply ctx op h)

/-- C23: key consistency of the registry.  When every entry stored at
registry[t][n] has type t and name n, the same holds after AddEntry, after
RemoveEntry, after RemoveEntryByType and after clearEntries; hence on every
registry built from an empty registry by a sequence of these operations,
GetEntry(t, n) only returns an entry whose type is t and whose name is n. -/
theorem registry_key_consistent (ctx : appContext) (entry : Option Entry)
    (entryType : String) (ops : List RegistryOp) :
    (KeyConsistent ctx →
      KeyConsistent (AddEntry ctx entry) ∧
      KeyConsistent (RemoveEntry ctx entry) ∧
      KeyConsistent (RemoveEntryByType ctx entryType) ∧
      KeyConsistent (clearEntries ctx)) ∧
    (ctx.entries = [] →
      KeyConsistent (applyRegistryOps ctx ops) ∧
      ∀ t n e, GetEntry (applyRegistryOps ctx ops) t n = some e →
        e.GetType = t ∧ e.GetName = n) := by
  constructor
  · intro h
    exact ⟨KeyConsistent_AddEntry ctx entry h, KeyConsistent_RemoveEntry ctx entry h,
      KeyConsistent_RemoveEntryByType ctx entryType h, KeyConsistent_clearEntries ctx⟩
  · intro h0
    have hk : KeyConsistent ctx := by
      intro t m n e hm
      simp [h0, GoMap.get?] at hm
    have hfinal := KeyConsistent_applyRegistryOps ops ctx hk
    exact ⟨hfinal, (KeyConsistent_iff _).mp hfinal⟩

/-- Witness of C23: from the empty registry, two entries named "a" of different
types and the entry "b" are added, "b" is removed and the type "ConfigEntry" is
removed; what GetEntry returns at "mock" and "a" has that type and name. -/
theorem registry_key_consistent_witness :
    emptyCtx.entries = [] ∧
    GetEntry (applyRegistryOps emptyCtx
        [RegistryOp.AddEntry (some (EntryMock 10 "a")),
         RegistryOp.AddEntry (some (foreignEntry 11 "ConfigEntry" "a")),
         RegistryOp.AddEntry (some (EntryMock 12 "b")),
         RegistryOp.RemoveEntry (some (EntryMock 12 "b")),
         RegistryOp.RemoveEntryByType "ConfigEntry"]) "mock" "a" = some (EntryMock 10 "a") ∧
    (EntryMock 10 "a").GetType = "mock" ∧ (EntryMock 10 "a").GetName = "a" :=
  have hget : GetEntry (applyRegistryOps emptyCtx
        [RegistryOp.AddEntry (some (EntryMock 10 "a")),
         RegistryOp.AddEntry (some (foreignEntry 11 "ConfigEntry" "a")),
         RegistryOp.AddEntry (some (EntryMock 12 "b")),
         RegistryOp.RemoveEntry (some (EntryMock 12 "b")),
         RegistryOp.RemoveEntryByType "ConfigEntry"]) "mock" "a" = some (EntryMock 10 "a") := by
    decide
  have h := ((registry_key_consistent emptyCtx none ""
        [RegistryOp.AddEntry (some (EntryMock 10 "a")),
         RegistryOp.AddEntry (some (foreignEntry 11 "ConfigEntry" "a")),
         RegistryOp.AddEntry (some (EntryMock 12 "b")),
         RegistryOp.RemoveEntry (some (EntryMock 12 "b")),
         RegistryOp.RemoveEntryByType "ConfigEntry"]).2 rfl).2 "mock" "a" (EntryMock 10 "a") hget
  ⟨rfl, hget, h.1, h.2⟩

end rkentry
